import Mathlib

/-!
Verification development for the hydrate secret-injection engine
(package `hydrate`: `pstore.go` together with the `Hydrate` entry point).

The Go code walks a decoded JSON/YAML/TOML document (a
`map[string]interface{}` tree), replaces secret-reference string values
with values fetched from a parameter store, and in Kubernetes mode applies
base64 handling to the `data` / `stringData` field groups of ConfigMap and
Secret manifests.

The embedding below mirrors the source:
  * a document is a `Fields` tree (string-keyed mapping whose leaves are
    scalars); Go's in-place mutation becomes returning the updated tree,
    and the fail-fast `return err` becomes the `Res` outcome carried next
    to the updated tree (the tree returned with an error is the state of
    the document at the moment of abort, matching the partially-mutated
    Go map);
  * the external SSM client and the format codecs are parameters
    (`provider`, `codecs`) exactly where the Go code calls out to them;
  * `log.Fatal` (used by the source when hydrating a nested structured
    file fails) is the distinct outcome `Res.fatal`: the process exits,
    no error value is returned to the caller;
  * bytes are modelled as `Char` codepoints (the payloads the source and
    the claims handle are ASCII / Latin-1, where this agrees with Go).
-/

mutual
/-- A scalar or composite document node, mirroring the dynamic
`interface{}` values the Go decoders produce. -/
inductive Value where
  | str (s : String) : Value
  | vint (n : Int) : Value
  | vbool (b : Bool) : Value
  | vnull : Value
  | varr (elems : ValList) : Value
  | vmap (fields : Fields) : Value
deriving DecidableEq

inductive ValList where
  | vnil : ValList
  | vcons (v : Value) (rest : ValList) : ValList
deriving DecidableEq

inductive Fields where
  | fnil : Fields
  | fcons (key : String) (v : Value) (rest : Fields) : Fields
deriving DecidableEq
end

/-- Association lookup in a document node, mirroring `data[key]`. -/
def lookupField : Fields → String → Option Value
  | .fnil, _ => none
  | .fcons k v rest, key => if k = key then some v else lookupField rest key

/-- Assignment `data[key] = v` for a key that is already present
(the source only ever assigns to keys it is iterating over). -/
def setField : Fields → String → Value → Fields
  | .fnil, _, _ => .fnil
  | .fcons k v rest, key, nv =>
      if k = key then .fcons k nv rest else .fcons k v (setField rest key nv)

/-- `v, _ := data[key].(string)`: a missing field or a non-string value
yields the empty string. -/
def getStringField (fs : Fields) (key : String) : String :=
  match lookupField fs key with
  | some (.str s) => s
  | _ => ""

/-- `m, ok := data[key].(map[string]interface{})`. -/
def getMapField (fs : Fields) (key : String) : Option Fields :=
  match lookupField fs key with
  | some (.vmap m) => some m
  | _ => none

/-- `strings.HasPrefix`. -/
def beginsWith (s pre : String) : Bool :=
  pre.data.isPrefixOf s.data

/-- `strings.TrimPrefix(value, "$SECRET:")` after the prefix has been
checked: drop the 8-character marker. -/
def dropMarker (s : String) : String :=
  String.mk (s.data.drop 8)

/-- Go `%q`: the argument surrounded by double quotes (escaping is not
needed for the strings handled here). -/
def q (s : String) : String := "\"" ++ s ++ "\""

/-- One step of `path.Clean`'s element processing: empty and `.` elements
are dropped, `..` pops the previous element (or is kept / dropped at the
root, depending on `rooted`). `acc` holds the processed elements in
reverse. -/
def cleanElems (rooted : Bool) : List (List Char) → List (List Char) → List (List Char)
  | [], acc => acc.reverse
  | c :: rest, acc =>
    if c = [] ∨ c = ['.'] then cleanElems rooted rest acc
    else if c = ['.', '.'] then
      match acc with
      | [] => if rooted then cleanElems rooted rest [] else cleanElems rooted rest [['.', '.']]
      | a :: as => if a = ['.', '.'] then cleanElems rooted rest (c :: a :: as)
                   else cleanElems rooted rest as
    else cleanElems rooted rest (c :: acc)

/-- Split a character list on `/`. -/
def splitSlash : List Char → List Char → List (List Char)
  | [], acc => [acc.reverse]
  | '/' :: rest, acc => acc.reverse :: splitSlash rest []
  | c :: rest, acc => splitSlash rest (c :: acc)

/-- Join components back with `/`. -/
def joinSlash : List (List Char) → List Char
  | [] => []
  | [c] => c
  | c :: rest => c ++ '/' :: joinSlash rest

/-- Go `path/filepath.Clean` for slash-separated paths. -/
def pathClean (s : String) : String :=
  if s = "" then "." else
  let rooted := beginsWith s "/"
  let comps := cleanElems rooted (splitSlash s.data []) []
  let out := joinSlash comps
  if rooted then String.mk ('/' :: out)
  else if out = [] then "." else String.mk out

/-- Go `filepath.Join(a, b)`: empty elements are skipped, the rest is
joined with `/` and cleaned; the join of all-empty elements is `""`. -/
def filepathJoin (a b : String) : String :=
  if a = "" ∧ b = "" then ""
  else if a = "" then pathClean b
  else if b = "" then pathClean a
  else pathClean (a ++ "/" ++ b)

example : beginsWith "$SECRET:/a" "$SECRET:" = true := by decide
example : beginsWith "x" "/" = false := by decide
example : lookupField (.fcons "a" (.str "1") .fnil) "a" = some (.str "1") := by decide
example : pathClean "/app//x" = "/app/x" := by decide
example : pathClean "/app/" = "/app" := by decide
example : filepathJoin "/prefix" "db_pwd" = "/prefix/db_pwd" := by decide
example : filepathJoin "/app" "" = "/app" := by decide
example : dropMarker "$SECRET:/x/y" = "/x/y" := by decide

/-- `filepath.Ext`: the suffix of the reversed name up to (and including)
the final dot, stopping at a path separator. `acc` holds the characters
already passed over, in original order. -/
def extRev : List Char → List Char → Option (List Char)
  | [], _ => none
  | c :: rest, acc =>
    if c = '/' then none
    else if c = '.' then some (c :: acc)
    else extRev rest (c :: acc)

/-- `strings.TrimLeft(filepath.Ext(key), ".")`: the key's file-name
extension without its leading dot(s), or `""`. -/
def keyFormat (key : String) : String :=
  match extRev key.data.reverse [] with
  | some ext => String.mk (ext.dropWhile (· = '.'))
  | none => ""

/-- The formats the source treats as structured files, both in the
`Hydrate` format switch and in the k8s field-group extension switch. -/
def knownFormat (format : String) : Bool :=
  format = "json" || format = "yml" || format = "yaml" || format = "toml"

example : keyFormat "db.json" = "json" := by decide
example : keyFormat "plain" = "" := by decide
example : keyFormat "a/b.yml" = "yml" := by decide

/-- The base64 standard alphabet. -/
def b64Alphabet : List Char :=
  "ABCDEFGHIJKLMNOPQRSTUVWXYZabcdefghijklmnopqrstuvwxyz0123456789+/".data

/-- The alphabet character for a 6-bit value. -/
def b64Char (n : Nat) : Char := b64Alphabet.getD n 'A'

/-- The 6-bit value of an alphabet character (`none` for `=` and any
other non-alphabet character). -/
def b64Val (c : Char) : Option Nat := b64Alphabet.findIdx? (· = c)

/-- `base64.StdEncoding.EncodeToString` on a byte list. -/
def b64EncodeBytes : List Nat → List Char
  | [] => []
  | [a] => [b64Char (a / 4), b64Char (a % 4 * 16), '=', '=']
  | [a, b] => [b64Char (a / 4), b64Char (a % 4 * 16 + b / 16), b64Char (b % 16 * 4), '=']
  | a :: b :: c :: rest =>
      b64Char (a / 4) :: b64Char (a % 4 * 16 + b / 16) ::
      b64Char (b % 16 * 4 + c / 64) :: b64Char (c % 64) :: b64EncodeBytes rest

/-- `base64.StdEncoding.DecodeString` on the character list (newlines
already removed): four-character chunks, padding allowed only in the
final chunk, length must be a multiple of four. -/
def b64DecodeChars : List Char → Option (List Nat)
  | [] => some []
  | c1 :: c2 :: c3 :: c4 :: rest =>
    if rest.isEmpty then
      if c3 = '=' ∧ c4 = '=' then
        match b64Val c1, b64Val c2 with
        | some a, some b => some [a * 4 + b / 16]
        | _, _ => none
      else if c4 = '=' then
        match b64Val c1, b64Val c2, b64Val c3 with
        | some a, some b, some c => some [a * 4 + b / 16, b % 16 * 16 + c / 4]
        | _, _, _ => none
      else
        match b64Val c1, b64Val c2, b64Val c3, b64Val c4 with
        | some a, some b, some c, some d =>
            some [a * 4 + b / 16, b % 16 * 16 + c / 4, c % 4 * 64 + d]
        | _, _, _, _ => none
    else
      match b64Val c1, b64Val c2, b64Val c3, b64Val c4 with
      | some a, some b, some c, some d =>
          (b64DecodeChars rest).map
            (fun bs => (a * 4 + b / 16) :: (b % 16 * 16 + c / 4) :: (c % 4 * 64 + d) :: bs)
      | _, _, _, _ => none
  | _ => none

/-- `base64.StdEncoding.EncodeToString([]byte(s))`, with bytes modelled
as character codepoints. -/
def base64EncodeStr (s : String) : String :=
  String.mk (b64EncodeBytes (s.data.map Char.toNat))

/-- `base64.StdEncoding.DecodeString(s)` followed by `string(decoded)`;
Go's decoder skips CR and LF characters. -/
def base64DecodeStr (s : String) : Option String :=
  (b64DecodeChars (s.data.filter (fun c => c ≠ '\r' ∧ c ≠ '\n'))).map
    (fun bs => String.mk (bs.map Char.ofNat))

example : base64EncodeStr "hi" = "aGk=" := by decide
example : base64EncodeStr "Man" = "TWFu" := by decide
example : base64DecodeStr "TWFu" = some "Man" := by decide
example : base64DecodeStr "aGk=" = some "hi" := by decide
example : base64DecodeStr "a" = none := by decide
example : base64DecodeStr "$$$$" = none := by decide
example : base64DecodeStr (base64EncodeStr "$SECRET:/b/p") = some "$SECRET:/b/p" := by decide

/-- Errors of the engine, mirroring the `errors.Errorf` / `fmt.Errorf`
sites in the source; `wrap` is `errors.Wrapf`'s added context, and
`external` is an error produced by an external collaborator (the SSM
client, the base64 decoder, or a format codec). -/
inductive Err where
  | badPath (key : String)
  | unsupportedKind (kind : String)
  | missingMetadata (kind : String)
  | unknownFormat (format : String)
  | external (msg : String)
  | wrap (ctx : String) (e : Err)
deriving DecidableEq

/-- The outcome of one hydration call. `fatal` models `log.Fatal`: the
process exits immediately, so no error value reaches the caller. -/
inductive Res where
  | ok : Res
  | err (e : Err) : Res
  | fatal (e : Err) : Res
deriving DecidableEq

/-- The mutable state of a `paramStore` run: the memoizing secret cache
(`secrets stringMap`) and, for specification purposes, the log of the
paths passed to the provider's `GetParameter`, in call order. -/
structure PState where
  secrets : List (String × String)
  calls : List String
deriving DecidableEq

/-- A format codec, the external collaborator pair
`GetData` / `PrintData` for one format. Encoding is modelled as total:
the JSON/YAML/TOML encoders do not fail on the string-keyed documents
this engine produces. -/
structure CodecI where
  dec : String → Except String Fields
  enc : Fields → String

/-- The `paramStore` configuration: the base path flag, the external SSM
client (`GetParameter` with decryption, returning the parameter value or
an error message), and the codec for each format name. -/
structure PStore where
  basePath : String
  provider : String → Except String String
  codecs : String → CodecI

/-- `ps.secrets.Load(key)`. -/
def lookupCache : List (String × String) → String → Option String
  | [], _ => none
  | (k, v) :: rest, key => if k = key then some v else lookupCache rest key

/-- The path-normalization prologue of `GetSecret`: an absolute key is
used verbatim; a relative key requires a configured base path (else the
"doesn't look like a valid parameter path" error) and is joined to it. -/
def normalizeKey (ps : PStore) (key : String) : Except Err String :=
  if beginsWith key "/" then .ok key
  else if ps.basePath = "" then .error (.badPath key)
  else .ok (filepathJoin ps.basePath key)

/-- `(*paramStore).GetSecret`: normalize the key, return the cached value
on a hit, otherwise call the provider, cache and return the fetched
value; a provider failure is wrapped with the requested parameter path. -/
def getSecret (ps : PStore) (st : PState) (key : String) :
    Except Err String × PState :=
  match normalizeKey ps key with
  | .error e => (.error e, st)
  | .ok nkey =>
    match lookupCache st.secrets nkey with
    | some v => (.ok v, st)
    | none =>
      match ps.provider nkey with
      | .error msg =>
          (.error (.wrap ("failed to fetch " ++ q nkey ++ " parameter") (.external msg)),
           { st with calls := st.calls ++ [nkey] })
      | .ok v =>
          (.ok v,
           { secrets := st.secrets ++ [(nkey, v)], calls := st.calls ++ [nkey] })

/-- `(*paramStore).hydrateKeyValue`: classify the scalar; `"$$"` and
`"$SECRET"` resolve the enclosing key, a `"$SECRET:"`-prefixed value
resolves its suffix, anything else is left alone (`nil, nil`). -/
def hydrateKeyValue (ps : PStore) (st : PState) (key value : String) :
    Except Err (Option String) × PState :=
  if value = "$$" ∨ value = "$SECRET" then
    match getSecret ps st key with
    | (.ok s, st1) => (.ok (some s), st1)
    | (.error e, st1) => (.error (.wrap (key ++ "=" ++ q value) e), st1)
  else if beginsWith value "$SECRET:" then
    match getSecret ps st (dropMarker value) with
    | (.ok s, st1) => (.ok (some s), st1)
    | (.error e, st1) => (.error (.wrap (key ++ "=" ++ q value) e), st1)
  else (.ok none, st)

/-- The error context `hydrateMapRecursively` prepends:
`"failed to hydrate %q field"` with the dot-joined path. -/
def walkCtx (path : List String) (key : String) : String :=
  "failed to hydrate " ++ q (String.intercalate "." (path ++ [key])) ++ " field"

/-- `(*paramStore).hydrateMapRecursively`: string values go through
`hydrateKeyValue` (a resolved secret replaces the value, errors abort the
walk wrapped with the field path), nested maps are recursed into, and
every other value (number, bool, null, array) is left untouched. The
returned `Fields` is the state of the document at return time: on an
abort the already-processed prefix keeps its replacements and the
remainder is unchanged, matching the in-place Go mutation. -/
def hydrateFields (ps : PStore) (path : List String) (st : PState) :
    Fields → Fields × PState × Res
  | .fnil => (.fnil, st, .ok)
  | .fcons key (.str s) rest =>
    match hydrateKeyValue ps st key s with
    | (.error e, st1) => (.fcons key (.str s) rest, st1, .err (.wrap (walkCtx path key) e))
    | (.ok none, st1) =>
      let (rest1, st2, r) := hydrateFields ps path st1 rest
      (.fcons key (.str s) rest1, st2, r)
    | (.ok (some sec), st1) =>
      let (rest1, st2, r) := hydrateFields ps path st1 rest
      (.fcons key (.str sec) rest1, st2, r)
  | .fcons key (.vmap m) rest =>
    match hydrateFields ps (path ++ [key]) st m with
    | (m1, st1, .ok) =>
      let (rest1, st2, r) := hydrateFields ps path st1 rest
      (.fcons key (.vmap m1) rest1, st2, r)
    | (m1, st1, r) => (.fcons key (.vmap m1) rest, st1, r)
  | .fcons key v rest =>
    let (rest1, st1, r) := hydrateFields ps path st rest
    (.fcons key v rest1, st1, r)

/-- The `Hydrate(w, r, format, false)` round trip used for a structured
file stored inside a k8s field group: decode with the format's codec,
hydrate as a plain document, re-encode. (For YAML the source loops over
the documents of the stream; a field value holds a single document, so
one decode/encode pass is the loop's behavior here.) -/
def hydrateFile (ps : PStore) (format : String) (content : String) (st : PState) :
    Except Err String × PState :=
  if knownFormat format then
    match (ps.codecs format).dec content with
    | .error msg => (.error (.wrap ("failed to decode " ++ format) (.external msg)), st)
    | .ok doc =>
      match hydrateFields ps [] st doc with
      | (doc1, st1, .ok) => (.ok ((ps.codecs format).enc doc1), st1)
      | (_, st1, .err e) => (.error e, st1)
      | (_, st1, .fatal e) => (.error e, st1)
  else (.error (.unknownFormat format), st)

/-- `strings.ToLower` for the ASCII kind names handled here. -/
def lowerStr (s : String) : String :=
  String.mk (s.data.map (fun c => if 'A' <= c && c <= 'Z' then Char.ofNat (c.toNat + 32) else c))

/-- The wrap context both k8s field-group loops use for a plain-value
resolution failure. -/
def dataCtx (key : String) : String :=
  "failed to hydrate k8s data field " ++ q key

/-- The `for key, value := range k8sData` loop of `hydrateK8sObject`:
each string value is base64-decoded (a decode failure aborts with a
wrapped error); if the key's extension names a structured format the
decoded file is hydrated via `Hydrate` and re-encoded — a failure there
is `log.Fatal` — otherwise the decoded value goes through
`hydrateKeyValue` and a resolved secret is written back re-encoded;
non-string values are skipped. -/
def hydrateK8sData (ps : PStore) (st : PState) : Fields → Fields × PState × Res
  | .fnil => (.fnil, st, .ok)
  | .fcons key (.str s) rest =>
    match base64DecodeStr s with
    | none =>
        (.fcons key (.str s) rest, st,
         .err (.wrap ("failed to base64-decode " ++ q key ++ " data field")
                     (.external "illegal base64 data")))
    | some decoded =>
      if knownFormat (keyFormat key) then
        match hydrateFile ps (keyFormat key) decoded st with
        | (.error e, st1) => (.fcons key (.str s) rest, st1, .fatal e)
        | (.ok out, st1) =>
          let (rest1, st2, r) := hydrateK8sData ps st1 rest
          (.fcons key (.str (base64EncodeStr out)) rest1, st2, r)
      else
        match hydrateKeyValue ps st key decoded with
        | (.error e, st1) =>
            (.fcons key (.str s) rest, st1, .err (.wrap (dataCtx key) e))
        | (.ok none, st1) =>
          let (rest1, st2, r) := hydrateK8sData ps st1 rest
          (.fcons key (.str s) rest1, st2, r)
        | (.ok (some sec), st1) =>
          let (rest1, st2, r) := hydrateK8sData ps st1 rest
          (.fcons key (.str (base64EncodeStr sec)) rest1, st2, r)
  | .fcons key v rest =>
    let (rest1, st1, r) := hydrateK8sData ps st rest
    (.fcons key v rest1, st1, r)

/-- The `for key, value := range k8sStringData` loop: like the data loop
but plain-text — no base64 decode on read and no re-encode on write. -/
def hydrateK8sStringData (ps : PStore) (st : PState) : Fields → Fields × PState × Res
  | .fnil => (.fnil, st, .ok)
  | .fcons key (.str s) rest =>
    if knownFormat (keyFormat key) then
      match hydrateFile ps (keyFormat key) s st with
      | (.error e, st1) => (.fcons key (.str s) rest, st1, .fatal e)
      | (.ok out, st1) =>
        let (rest1, st2, r) := hydrateK8sStringData ps st1 rest
        (.fcons key (.str out) rest1, st2, r)
    else
      match hydrateKeyValue ps st key s with
      | (.error e, st1) =>
          (.fcons key (.str s) rest, st1, .err (.wrap (dataCtx key) e))
      | (.ok none, st1) =>
        let (rest1, st2, r) := hydrateK8sStringData ps st1 rest
        (.fcons key (.str s) rest1, st2, r)
      | (.ok (some sec), st1) =>
        let (rest1, st2, r) := hydrateK8sStringData ps st1 rest
        (.fcons key (.str sec) rest1, st2, r)
  | .fcons key v rest =>
    let (rest1, st1, r) := hydrateK8sStringData ps st rest
    (.fcons key v rest1, st1, r)

/-- The `stringData` half of `hydrateK8sObject`, applied after the data
group (the group map was captured before the data group was hydrated;
hydrating `data` never touches the `stringData` field). -/
def hydrateSDPart (ps : PStore) (st : PState) (fs : Fields) :
    Option Fields → Fields × PState × Res
  | none => (fs, st, .ok)
  | some sm =>
    match hydrateK8sStringData ps st sm with
    | (sm1, st1, r) => (setField fs "stringData" (.vmap sm1), st1, r)

/-- `(*paramStore).hydrateK8sObject`: dispatch on the manifest `kind` —
`ConfigMap`/`Secret` proceed (requiring a `metadata` map), an empty kind
falls back to the plain recursive walk, and any other kind fails with the
unsupported-kind error before touching the document. The `data` group is
hydrated first; its failure aborts before `stringData` is examined. -/
def hydrateK8sObject (ps : PStore) (st : PState) (fs : Fields) :
    Fields × PState × Res :=
  let kind := getStringField fs "kind"
  if kind = "ConfigMap" ∨ kind = "Secret" then
    match getMapField fs "metadata" with
    | none => (fs, st, .err (.missingMetadata (lowerStr kind)))
    | some _ =>
      let sdM := getMapField fs "stringData"
      match getMapField fs "data" with
      | some dm =>
        match hydrateK8sData ps st dm with
        | (dm1, st1, .ok) => hydrateSDPart ps st1 (setField fs "data" (.vmap dm1)) sdM
        | (dm1, st1, r) => (setField fs "data" (.vmap dm1), st1, r)
      | none => hydrateSDPart ps st fs sdM
  else if kind = "" then
    hydrateFields ps [] st fs
  else
    (fs, st, .err (.unsupportedKind kind))

/-- `(*paramStore).hydrateData`: the caller-facing entry point selecting
plain or Kubernetes mode. -/
def hydrateData (ps : PStore) (st : PState) (fs : Fields) (k8s : Bool) :
    Fields × PState × Res :=
  if k8s then hydrateK8sObject ps st fs
  else hydrateFields ps [] st fs

mutual
/-- Shape agreement between an input and an output document: the same
keys in the same order at every map node, string values may have been
replaced by strings, and every other value (number, bool, null, array)
is identical. -/
def sameShapeF : Fields → Fields → Bool
  | .fnil, .fnil => true
  | .fcons k v r, .fcons k' v' r' => k == k' && sameShapeV v v' && sameShapeF r r'
  | _, _ => false

def sameShapeV : Value → Value → Bool
  | .str _, .str _ => true
  | .vmap a, .vmap b => sameShapeF a b
  | a, b => a == b
end

/-- The keys of a map node, in order. -/
def fieldKeys : Fields → List String
  | .fnil => []
  | .fcons k _ rest => k :: fieldKeys rest

/-- Values that the walker never rewrites: everything that is neither a
string nor a nested map. -/
def untouchedKind : Value → Bool
  | .str _ => false
  | .vmap _ => false
  | _ => true

/-- Lookup along a key path, descending through nested maps. -/
def getPath (fs : Fields) : List String → Option Value
  | [] => none
  | [k] => lookupField fs k
  | k :: rest =>
    match lookupField fs k with
    | some (.vmap m) => getPath m rest
    | _ => none

/-- The paths present in the cache. -/
def cacheKeys (c : List (String × String)) : List String :=
  c.map (fun kv => kv.1)

/-- The run-state invariant: no provider path was ever requested twice,
and every requested path has been cached (a successful fetch stores its
result before anything else runs). -/
def CacheInv (st : PState) : Prop :=
  st.calls.Nodup ∧ ∀ p ∈ st.calls, p ∈ cacheKeys st.secrets

/-- Postcondition for `Except`-returning steps: on success the invariant
is maintained; on failure the run aborts, so only call-uniqueness (the
failed fetch is logged but not cached) is claimed. -/
def einv {α : Type} (x : Except Err α × PState) : Prop :=
  match x.1 with
  | .ok _ => CacheInv x.2
  | .error _ => x.2.calls.Nodup

/-- The same postcondition for the walking functions. -/
def rinv (x : Fields × PState × Res) : Prop :=
  match x.2.2 with
  | .ok => CacheInv x.2.1
  | _ => x.2.1.calls.Nodup

/-- The empty run state: no cached secrets, no provider calls yet. -/
def st0 : PState := ⟨[], []⟩

def psW9 : PStore :=
  { basePath := "/b"
    provider := fun _ => .ok "s"
    codecs := fun _ => ⟨fun _ => .error "e", fun _ => ""⟩ }

def docW9 : Fields :=
  .fcons "cfg"
    (.vmap (.fcons "arr" (.varr (.vcons (.str "$SECRET:/x") .vnil))
      (.fcons "n" (.vint 5) .fnil))) .fnil

def psW4 : PStore :=
  { basePath := "/b"
    provider := fun _ => .ok "s"
    codecs := fun _ => ⟨fun _ => .error "e", fun _ => ""⟩ }

def docW4 : Fields :=
  .fcons "kind" (.str "Job")
    (.fcons "metadata" (.vmap (.fcons "name" (.str "job1") .fnil))
      (.fcons "data" (.vmap (.fcons "pwd" (.str "$$") .fnil)) .fnil))

/-- A scalar string is a secret reference marker: exactly `"$$"` or
`"$SECRET"`, or prefixed with `"$SECRET:"`. -/
def isRef (s : String) : Bool :=
  s = "$$" || s = "$SECRET" || beginsWith s "$SECRET:"

mutual
/-- No reference marker anywhere in the tree (arrays included). -/
def noRefV : Value → Bool
  | .str s => !(isRef s)
  | .vmap m => noRefF m
  | .varr l => noRefL l
  | _ => true

def noRefL : ValList → Bool
  | .vnil => true
  | .vcons v rest => noRefV v && noRefL rest

def noRefF : Fields → Bool
  | .fnil => true
  | .fcons _ v rest => noRefV v && noRefF rest
end

/-- Condition under which the `data` group loop leaves an entry alone:
string values must be valid base64 whose decoding is not a reference, and
the key must not carry a structured-format extension (a structured file is
always re-encoded, even when unchanged). -/
def k8sDataNoop : Fields → Bool
  | .fnil => true
  | .fcons k v rest =>
    (match v with
     | .str s =>
        !(knownFormat (keyFormat k)) &&
        (match base64DecodeStr s with
         | some d => !(isRef d)
         | none => false)
     | _ => true) && k8sDataNoop rest

/-- The same condition for the plain-text `stringData` group. -/
def k8sSDNoop : Fields → Bool
  | .fnil => true
  | .fcons k v rest =>
    (match v with
     | .str s => !(knownFormat (keyFormat k)) && !(isRef s)
     | _ => true) && k8sSDNoop rest

/-- The extra side conditions Kubernetes mode needs for hydration of a
marker-free document to be the identity: a supported (or absent) kind, a
metadata map when the kind is non-empty, and both field groups (when
present) satisfying the per-group no-op conditions. -/
def k8sNoopCond (fs : Fields) : Bool :=
  if getStringField fs "kind" = "ConfigMap" ∨ getStringField fs "kind" = "Secret" then
    (getMapField fs "metadata").isSome &&
    (match getMapField fs "data" with | some dm => k8sDataNoop dm | none => true) &&
    (match getMapField fs "stringData" with | some sm => k8sSDNoop sm | none => true)
  else if getStringField fs "kind" = "" then true
  else false

def psW1 : PStore :=
  { basePath := "/b"
    provider := fun _ => .ok "v"
    codecs := fun _ => ⟨fun _ => .error "e", fun _ => ""⟩ }

def docW1 : Fields :=
  .fcons "kind" (.str "Secret")
    (.fcons "metadata" (.vmap (.fcons "name" (.str "app") .fnil))
      (.fcons "data" (.vmap (.fcons "pwd" (.str (base64EncodeStr "hunter2")) .fnil))
        (.fcons "stringData" (.vmap (.fcons "user" (.str "alice") .fnil))
          (.fcons "extra" (.vmap (.fcons "plain" (.str "text") .fnil)) .fnil))))

/-- A format codec behaving like BurntSushi's TOML codec at the inputs of
the C1 counterexample: `"name = 1"` decodes to the document `{name: 1}`,
and encoding that document emits the canonical form `"name = 1\n"` — the
encode/decode round trip does not reproduce the original bytes. -/
def codecC1 : CodecI :=
  { dec := fun s =>
      if s = "name = 1" ∨ s = "name = 1\n" then .ok (.fcons "name" (.vint 1) .fnil)
      else .error "bad syntax"
    enc := fun _ => "name = 1\n" }

def psC1 : PStore :=
  { basePath := "/b"
    provider := fun _ => .error "nf"
    codecs := fun _ => codecC1 }

/-- A marker-free Secret manifest whose data field holds a structured
(TOML) file. -/
def docC1 : Fields :=
  .fcons "kind" (.str "Secret")
    (.fcons "metadata" (.vmap (.fcons "name" (.str "app") .fnil))
      (.fcons "data"
        (.vmap (.fcons "cfg.toml" (.str (base64EncodeStr "name = 1")) .fnil)) .fnil))

def psC5 : PStore :=
  { basePath := "/b"
    provider := fun _ => .ok "v"
    codecs := fun _ => ⟨fun _ => .error "e", fun _ => ""⟩ }

/-- A Secret manifest with a data group but no metadata at all. -/
def docC5 : Fields :=
  .fcons "kind" (.str "Secret")
    (.fcons "data" (.vmap (.fcons "a" (.str (base64EncodeStr "v")) .fnil)) .fnil)

/-- A ConfigMap manifest carrying a metadata map, used to show the
metadata content is irrelevant. -/
def docW5 : Fields :=
  .fcons "kind" (.str "ConfigMap")
    (.fcons "metadata" (.vmap (.fcons "name" (.str "cm") .fnil))
      (.fcons "data" (.vmap (.fcons "greeting" (.str (base64EncodeStr "hello")) .fnil))
        .fnil))

def psC6 : PStore :=
  { basePath := "/b"
    provider := fun _ => .ok "swordfish"
    codecs := fun _ => ⟨fun _ => .error "e", fun _ => ""⟩ }

/-- A ConfigMap whose `binaryData` group holds a base64-encoded secret
reference. -/
def docC6 : Fields :=
  .fcons "kind" (.str "ConfigMap")
    (.fcons "metadata" (.vmap .fnil)
      (.fcons "binaryData"
        (.vmap (.fcons "app.bin" (.str (base64EncodeStr "$SECRET:/b/p")) .fnil)) .fnil))

def psW6 : PStore :=
  { basePath := "/b"
    provider := fun p =>
      if p = "/b/pwd" then .ok "s3cr3t"
      else if p = "/b/tok" then .ok "t0k" else .error "nf"
    codecs := fun _ => ⟨fun _ => .error "e", fun _ => ""⟩ }

/-- A Secret whose data group holds one base64-encoded reference. -/
def docW6B : Fields :=
  .fcons "kind" (.str "Secret")
    (.fcons "metadata" (.vmap (.fcons "name" (.str "app") .fnil))
      (.fcons "data"
        (.vmap (.fcons "pwd" (.str (base64EncodeStr "$SECRET:/b/pwd")) .fnil)) .fnil))

/-- A ConfigMap whose stringData group holds one plain reference. -/
def docW6C : Fields :=
  .fcons "kind" (.str "ConfigMap")
    (.fcons "metadata" (.vmap .fnil)
      (.fcons "stringData"
        (.vmap (.fcons "tok" (.str "$SECRET:/b/tok") .fnil)) .fnil))

/-- A store with a base path configured and a value stored at the base
path itself. -/
def psC7 : PStore :=
  { basePath := "/app"
    provider := fun p => if p = "/app" then .ok "rootsecret" else .error "nf"
    codecs := fun _ => ⟨fun _ => .error "e", fun _ => ""⟩ }

/-- A store with no base path configured. -/
def psW7e : PStore :=
  { basePath := ""
    provider := fun _ => .ok "v"
    codecs := fun _ => ⟨fun _ => .error "e", fun _ => ""⟩ }

/-- A run state whose cache already holds the cleaned base path. -/
def stW7 : PState := ⟨[("/app", "rv")], ["/app"]⟩

/-- The value a reference resolved to: `some v` on success (`v = none`
meaning "not a reference, left untouched"), `none` when resolution
errored. -/
def resolvedValue (x : Except Err (Option String) × PState) : Option (Option String) :=
  match x.1 with
  | .ok v => some v
  | .error _ => none

/-- A store whose configured base path carries a trailing slash, as in
the tool's own usage example `--path=/app/sit1/`. -/
def psC3 : PStore :=
  { basePath := "/app/"
    provider := fun p => if p = "/app/x" then .ok "A" else .error "nf"
    codecs := fun _ => ⟨fun _ => .error "e", fun _ => ""⟩ }

def psW3 : PStore :=
  { basePath := "/b"
    provider := fun p => if p = "/b/x" then .ok "val" else .error "nf"
    codecs := fun _ => ⟨fun _ => .error "e", fun _ => ""⟩ }

/-- The outcome is either success or an error value returned to the
caller carrying context: a wrapped error (path/key/value context
prepended) or one of the kind-naming k8s errors. A `fatal` outcome —
`log.Fatal`, which exits the process — never satisfies this. -/
def resReturnedWithCtx : Res → Bool
  | .ok => true
  | .err (.wrap _ _) => true
  | .err (.unsupportedKind _) => true
  | .err (.missingMetadata _) => true
  | .err _ => false
  | .fatal _ => false

/-- The outcome is an error value returned to the caller. -/
def isReturnedErr : Res → Bool
  | .err _ => true
  | _ => false

/-- No string entry of the group has a structured-format key extension
(no nested file hydration will run). -/
def groupNoFiles : Fields → Bool
  | .fnil => true
  | .fcons k v rest =>
    (match v with
     | .str _ => !(knownFormat (keyFormat k))
     | _ => true) && groupNoFiles rest

/-- Neither field group of the manifest contains a structured-format
(file-valued) key. -/
def k8sNoFiles (fs : Fields) : Bool :=
  (match getMapField fs "data" with | some dm => groupNoFiles dm | none => true) &&
  (match getMapField fs "stringData" with | some sm => groupNoFiles sm | none => true)

/-- A store whose codecs reject their input, making any nested
structured-file hydration fail. -/
def psC8 : PStore :=
  { basePath := "/b"
    provider := fun _ => .ok "v"
    codecs := fun _ => ⟨fun _ => .error "bad syntax", fun _ => ""⟩ }

/-- A Secret whose data group holds a structured file that will fail to
decode. -/
def docC8 : Fields :=
  .fcons "kind" (.str "Secret")
    (.fcons "metadata" (.vmap .fnil)
      (.fcons "data"
        (.vmap (.fcons "cfg.json" (.str (base64EncodeStr "oops")) .fnil)) .fnil))

/-- A store with no base path and a failing provider. -/
def psW8 : PStore :=
  { basePath := ""
    provider := fun _ => .error "AccessDenied"
    codecs := fun _ => ⟨fun _ => .error "e", fun _ => ""⟩ }

def docW8plain : Fields :=
  .fcons "outer" (.vmap (.fcons "pwd" (.str "$$") .fnil)) .fnil

def docW8k8s : Fields :=
  .fcons "kind" (.str "Secret")
    (.fcons "metadata" (.vmap .fnil)
      (.fcons "data"
        (.vmap (.fcons "a" (.str (base64EncodeStr "$SECRET:/b/q")) .fnil)) .fnil))

def psW2 : PStore :=
  { basePath := "/b"
    provider := fun pth => if pth = "/b/k" then .ok "v" else .error "nf"
    codecs := fun _ => ⟨fun _ => .error "e", fun _ => ""⟩ }

def docW2 : Fields :=
  .fcons "k" (.str "$$") (.fcons "k2" (.str "$SECRET:/b/k") .fnil)

/-- A run state in which the path `/b/k` has already been fetched. -/
def stW2 : PState := ⟨[("/b/k", "v")], ["/b/k"]⟩

mutual
theorem sameShapeF_refl : ∀ fs : Fields, sameShapeF fs fs = true
  | .fnil => rfl
  | .fcons k v r => by
      simp [sameShapeF, sameShapeV_refl v, sameShapeF_refl r]

theorem sameShapeV_refl : ∀ v : Value, sameShapeV v v = true
  | .str _ => rfl
  | .vint _ => by simp [sameShapeV]
  | .vbool _ => by simp [sameShapeV]
  | .vnull => by simp [sameShapeV]
  | .varr _ => by simp [sameShapeV]
  | .vmap m => by simp [sameShapeV, sameShapeF_refl m]
end

mutual
theorem sameShapeF_trans : ∀ {a b c : Fields},
    sameShapeF a b = true → sameShapeF b c = true → sameShapeF a c = true
  | .fnil, .fnil, .fnil, _, _ => rfl
  | .fcons k v r, .fcons k' v' r', .fcons k'' v'' r'', h1, h2 => by
      simp only [sameShapeF, Bool.and_eq_true, beq_iff_eq] at h1 h2 ⊢
      exact ⟨⟨h1.1.1.trans h2.1.1, sameShapeV_trans h1.1.2 h2.1.2⟩,
             sameShapeF_trans h1.2 h2.2⟩

theorem sameShapeV_trans : ∀ {a b c : Value},
    sameShapeV a b = true → sameShapeV b c = true → sameShapeV a c = true
  | .str _, .str _, .str _, _, _ => rfl
  | .vmap _, .vmap _, .vmap _, h1, h2 => by
      simp [sameShapeV] at h1 h2 ⊢
      exact sameShapeF_trans h1 h2
  | .vint _, b, c, h1, h2 => by
      cases b <;> simp_all [sameShapeV]
  | .vbool _, b, c, h1, h2 => by
      cases b <;> simp_all [sameShapeV]
  | .vnull, b, c, h1, h2 => by
      cases b <;> simp_all [sameShapeV]
  | .varr _, b, c, h1, h2 => by
      cases b <;> simp_all [sameShapeV]
end

theorem sameShapeF_keys : ∀ {a b : Fields},
    sameShapeF a b = true → fieldKeys a = fieldKeys b
  | .fnil, .fnil, _ => rfl
  | .fcons k v r, .fcons k' v' r', h => by
      simp only [sameShapeF, Bool.and_eq_true, beq_iff_eq] at h
      simp [fieldKeys, h.1.1, sameShapeF_keys h.2]

theorem sameShapeF_lookup : ∀ {a b : Fields} (key : String) {v : Value},
    sameShapeF a b = true → lookupField a key = some v →
    ∃ v', lookupField b key = some v' ∧ sameShapeV v v' = true
  | .fcons k v0 r, .fcons k' v0' r', key, v, h, hl => by
      simp only [sameShapeF, Bool.and_eq_true, beq_iff_eq] at h
      by_cases hk : k = key
      · refine ⟨v0', ?_, ?_⟩
        · simp [lookupField, ← h.1.1, hk]
        · simp only [lookupField, if_pos hk] at hl
          cases hl; exact h.1.2
      · simp only [lookupField, if_neg hk] at hl
        obtain ⟨v', hv', hs⟩ := sameShapeF_lookup key h.2 hl
        refine ⟨v', ?_, hs⟩
        simp [lookupField, ← h.1.1, if_neg hk, hv']

theorem sameShapeV_untouched {v v' : Value}
    (hu : untouchedKind v = true) (hs : sameShapeV v v' = true) : v' = v := by
  cases v <;> cases v' <;> simp_all [untouchedKind, sameShapeV]

/-- Shape agreement preserves `getPath` results whose final value is of
an untouched kind. -/
theorem sameShapeF_getPath : ∀ (path : List String) {a b : Fields} {v : Value},
    sameShapeF a b = true → getPath a path = some v → untouchedKind v = true →
    getPath b path = some v
  | [], _, _, _, _, hp, _ => by simp [getPath] at hp
  | [k], a, b, v, hs, hp, hu => by
      simp only [getPath] at hp ⊢
      obtain ⟨v', hv', hsv⟩ := sameShapeF_lookup k hs hp
      rw [hv', sameShapeV_untouched hu hsv]
  | k :: k' :: rest, a, b, v, hs, hp, hu => by
      simp only [getPath] at hp ⊢
      cases hl : lookupField a k with
      | none => rw [hl] at hp; exact absurd hp (by simp)
      | some w =>
        rw [hl] at hp
        cases w with
        | vmap m =>
          obtain ⟨w', hw', hsw⟩ := sameShapeF_lookup k hs hl
          cases w' with
          | vmap m' =>
            rw [hw']
            exact sameShapeF_getPath (k' :: rest) (by simpa [sameShapeV] using hsw) hp hu
          | str s => simp [sameShapeV] at hsw
          | vint n => simp [sameShapeV] at hsw
          | vbool b0 => simp [sameShapeV] at hsw
          | vnull => simp [sameShapeV] at hsw
          | varr l => simp [sameShapeV] at hsw
        | str s => exact absurd hp (by simp)
        | vint n => exact absurd hp (by simp)
        | vbool b0 => exact absurd hp (by simp)
        | vnull => exact absurd hp (by simp)
        | varr l => exact absurd hp (by simp)

/-- Replacing a present key's value with a shape-compatible one keeps
the whole node shape-compatible. -/
theorem setField_shape : ∀ (fs : Fields) (key : String) {v nv : Value},
    lookupField fs key = some v → sameShapeV v nv = true →
    sameShapeF fs (setField fs key nv) = true
  | .fnil, key, v, nv, hl, _ => by simp [lookupField] at hl
  | .fcons k w rest, key, v, nv, hl, hs => by
      by_cases hk : k = key
      · simp only [lookupField, if_pos hk] at hl
        cases hl
        simp [setField, if_pos hk, sameShapeF, sameShapeF_refl rest, hs]
      · simp only [lookupField, if_neg hk] at hl
        simp [setField, if_neg hk, sameShapeF, sameShapeV_refl w,
              setField_shape rest key hl hs]

/-- Setting one key leaves every other key's lookup unchanged. -/
theorem lookupField_setField_other : ∀ (fs : Fields) {key key' : String} (nv : Value),
    key' ≠ key → lookupField (setField fs key nv) key' = lookupField fs key'
  | .fnil, _, _, _, _ => rfl
  | .fcons k w rest, key, key', nv, hne => by
      by_cases hk : k = key
      · subst hk
        simp [setField, lookupField, if_neg (Ne.symm hne)]
      · by_cases hk' : k = key'
        · simp [setField, if_neg hk, lookupField, if_pos hk']
        · simp [setField, if_neg hk, lookupField, if_neg hk',
                lookupField_setField_other rest nv hne]

/-- Setting a present key makes its lookup return the new value. -/
theorem lookupField_setField_self : ∀ (fs : Fields) {key : String} {v : Value} (nv : Value),
    lookupField fs key = some v → lookupField (setField fs key nv) key = some nv
  | .fnil, key, v, nv, hl => by simp [lookupField] at hl
  | .fcons k w rest, key, v, nv, hl => by
      by_cases hk : k = key
      · simp [setField, if_pos hk, lookupField, hk]
      · simp only [lookupField, if_neg hk] at hl
        simp [setField, if_neg hk, lookupField, if_neg hk,
              lookupField_setField_self rest nv hl]

theorem hydrateFields_shape : ∀ (ps : PStore) (path : List String) (st : PState) (fs : Fields),
    sameShapeF fs (hydrateFields ps path st fs).1 = true
  | ps, path, st, .fnil => by simp [hydrateFields, sameShapeF]
  | ps, path, st, .fcons key (.str s) rest => by
      rcases h : hydrateKeyValue ps st key s with ⟨res, st1⟩
      match res with
      | .error e =>
        simp [hydrateFields, h, sameShapeF, sameShapeV, sameShapeF_refl rest]
      | .ok none =>
        have ih := hydrateFields_shape ps path st1 rest
        rcases h2 : hydrateFields ps path st1 rest with ⟨rest1, st2, r⟩
        rw [h2] at ih
        simpa [hydrateFields, h, h2, sameShapeF, sameShapeV] using ih
      | .ok (some sec) =>
        have ih := hydrateFields_shape ps path st1 rest
        rcases h2 : hydrateFields ps path st1 rest with ⟨rest1, st2, r⟩
        rw [h2] at ih
        simpa [hydrateFields, h, h2, sameShapeF, sameShapeV] using ih
  | ps, path, st, .fcons key (.vmap m) rest => by
      have ihm := hydrateFields_shape ps (path ++ [key]) st m
      rcases h : hydrateFields ps (path ++ [key]) st m with ⟨m1, st1, r⟩
      rw [h] at ihm
      match r with
      | .ok =>
        have ih := hydrateFields_shape ps path st1 rest
        rcases h2 : hydrateFields ps path st1 rest with ⟨rest1, st2, r2⟩
        rw [h2] at ih
        simp [hydrateFields, h, h2, sameShapeF, sameShapeV]
        exact ⟨ihm, ih⟩
      | .err e =>
        simp [hydrateFields, h, sameShapeF, sameShapeV, sameShapeF_refl rest]
        exact ihm
      | .fatal e =>
        simp [hydrateFields, h, sameShapeF, sameShapeV, sameShapeF_refl rest]
        exact ihm
  | ps, path, st, .fcons key (.vint n) rest => by
      have ih := hydrateFields_shape ps path st rest
      rcases h2 : hydrateFields ps path st rest with ⟨rest1, st2, r⟩
      rw [h2] at ih
      simpa [hydrateFields, h2, sameShapeF, sameShapeV] using ih
  | ps, path, st, .fcons key (.vbool b) rest => by
      have ih := hydrateFields_shape ps path st rest
      rcases h2 : hydrateFields ps path st rest with ⟨rest1, st2, r⟩
      rw [h2] at ih
      simpa [hydrateFields, h2, sameShapeF, sameShapeV] using ih
  | ps, path, st, .fcons key .vnull rest => by
      have ih := hydrateFields_shape ps path st rest
      rcases h2 : hydrateFields ps path st rest with ⟨rest1, st2, r⟩
      rw [h2] at ih
      simpa [hydrateFields, h2, sameShapeF, sameShapeV] using ih
  | ps, path, st, .fcons key (.varr l) rest => by
      have ih := hydrateFields_shape ps path st rest
      rcases h2 : hydrateFields ps path st rest with ⟨rest1, st2, r⟩
      rw [h2] at ih
      simpa [hydrateFields, h2, sameShapeF, sameShapeV] using ih

theorem hydrateK8sData_shape : ∀ (ps : PStore) (st : PState) (fs : Fields),
    sameShapeF fs (hydrateK8sData ps st fs).1 = true
  | ps, st, .fnil => by simp [hydrateK8sData, sameShapeF]
  | ps, st, .fcons key (.str s) rest => by
      match hd : base64DecodeStr s with
      | none =>
        simp [hydrateK8sData, hd, sameShapeF, sameShapeV, sameShapeF_refl rest]
      | some decoded =>
        by_cases hf : knownFormat (keyFormat key) = true
        · rcases h : hydrateFile ps (keyFormat key) decoded st with ⟨fres, st1⟩
          match fres with
          | .error e =>
            simp [hydrateK8sData, hd, hf, h, sameShapeF, sameShapeV, sameShapeF_refl rest]
          | .ok out =>
            have ih := hydrateK8sData_shape ps st1 rest
            rcases h2 : hydrateK8sData ps st1 rest with ⟨rest1, st2, r⟩
            rw [h2] at ih
            simpa [hydrateK8sData, hd, hf, h, h2, sameShapeF, sameShapeV] using ih
        · rcases h : hydrateKeyValue ps st key decoded with ⟨res, st1⟩
          match res with
          | .error e =>
            simp [hydrateK8sData, hd, hf, h, sameShapeF, sameShapeV, sameShapeF_refl rest]
          | .ok none =>
            have ih := hydrateK8sData_shape ps st1 rest
            rcases h2 : hydrateK8sData ps st1 rest with ⟨rest1, st2, r⟩
            rw [h2] at ih
            simpa [hydrateK8sData, hd, hf, h, h2, sameShapeF, sameShapeV] using ih
          | .ok (some sec) =>
            have ih := hydrateK8sData_shape ps st1 rest
            rcases h2 : hydrateK8sData ps st1 rest with ⟨rest1, st2, r⟩
            rw [h2] at ih
            simpa [hydrateK8sData, hd, hf, h, h2, sameShapeF, sameShapeV] using ih
  | ps, st, .fcons key (.vint n) rest => by
      have ih := hydrateK8sData_shape ps st rest
      rcases h2 : hydrateK8sData ps st rest with ⟨rest1, st2, r⟩
      rw [h2] at ih
      simpa [hydrateK8sData, h2, sameShapeF, sameShapeV] using ih
  | ps, st, .fcons key (.vbool b) rest => by
      have ih := hydrateK8sData_shape ps st rest
      rcases h2 : hydrateK8sData ps st rest with ⟨rest1, st2, r⟩
      rw [h2] at ih
      simpa [hydrateK8sData, h2, sameShapeF, sameShapeV] using ih
  | ps, st, .fcons key .vnull rest => by
      have ih := hydrateK8sData_shape ps st rest
      rcases h2 : hydrateK8sData ps st rest with ⟨rest1, st2, r⟩
      rw [h2] at ih
      simpa [hydrateK8sData, h2, sameShapeF, sameShapeV] using ih
  | ps, st, .fcons key (.varr l) rest => by
      have ih := hydrateK8sData_shape ps st rest
      rcases h2 : hydrateK8sData ps st rest with ⟨rest1, st2, r⟩
      rw [h2] at ih
      simpa [hydrateK8sData, h2, sameShapeF, sameShapeV] using ih
  | ps, st, .fcons key (.vmap m) rest => by
      have ih := hydrateK8sData_shape ps st rest
      rcases h2 : hydrateK8sData ps st rest with ⟨rest1, st2, r⟩
      rw [h2] at ih
      simpa [hydrateK8sData, h2, sameShapeF, sameShapeV, sameShapeF_refl m] using ih

theorem hydrateK8sStringData_shape : ∀ (ps : PStore) (st : PState) (fs : Fields),
    sameShapeF fs (hydrateK8sStringData ps st fs).1 = true
  | ps, st, .fnil => by simp [hydrateK8sStringData, sameShapeF]
  | ps, st, .fcons key (.str s) rest => by
      by_cases hf : knownFormat (keyFormat key) = true
      · rcases h : hydrateFile ps (keyFormat key) s st with ⟨fres, st1⟩
        match fres with
        | .error e =>
          simp [hydrateK8sStringData, hf, h, sameShapeF, sameShapeV, sameShapeF_refl rest]
        | .ok out =>
          have ih := hydrateK8sStringData_shape ps st1 rest
          rcases h2 : hydrateK8sStringData ps st1 rest with ⟨rest1, st2, r⟩
          rw [h2] at ih
          simpa [hydrateK8sStringData, hf, h, h2, sameShapeF, sameShapeV] using ih
      · rcases h : hydrateKeyValue ps st key s with ⟨res, st1⟩
        match res with
        | .error e =>
          simp [hydrateK8sStringData, hf, h, sameShapeF, sameShapeV, sameShapeF_refl rest]
        | .ok none =>
          have ih := hydrateK8sStringData_shape ps st1 rest
          rcases h2 : hydrateK8sStringData ps st1 rest with ⟨rest1, st2, r⟩
          rw [h2] at ih
          simpa [hydrateK8sStringData, hf, h, h2, sameShapeF, sameShapeV] using ih
        | .ok (some sec) =>
          have ih := hydrateK8sStringData_shape ps st1 rest
          rcases h2 : hydrateK8sStringData ps st1 rest with ⟨rest1, st2, r⟩
          rw [h2] at ih
          simpa [hydrateK8sStringData, hf, h, h2, sameShapeF, sameShapeV] using ih
  | ps, st, .fcons key (.vint n) rest => by
      have ih := hydrateK8sStringData_shape ps st rest
      rcases h2 : hydrateK8sStringData ps st rest with ⟨rest1, st2, r⟩
      rw [h2] at ih
      simpa [hydrateK8sStringData, h2, sameShapeF, sameShapeV] using ih
  | ps, st, .fcons key (.vbool b) rest => by
      have ih := hydrateK8sStringData_shape ps st rest
      rcases h2 : hydrateK8sStringData ps st rest with ⟨rest1, st2, r⟩
      rw [h2] at ih
      simpa [hydrateK8sStringData, h2, sameShapeF, sameShapeV] using ih
  | ps, st, .fcons key .vnull rest => by
      have ih := hydrateK8sStringData_shape ps st rest
      rcases h2 : hydrateK8sStringData ps st rest with ⟨rest1, st2, r⟩
      rw [h2] at ih
      simpa [hydrateK8sStringData, h2, sameShapeF, sameShapeV] using ih
  | ps, st, .fcons key (.varr l) rest => by
      have ih := hydrateK8sStringData_shape ps st rest
      rcases h2 : hydrateK8sStringData ps st rest with ⟨rest1, st2, r⟩
      rw [h2] at ih
      simpa [hydrateK8sStringData, h2, sameShapeF, sameShapeV] using ih
  | ps, st, .fcons key (.vmap m) rest => by
      have ih := hydrateK8sStringData_shape ps st rest
      rcases h2 : hydrateK8sStringData ps st rest with ⟨rest1, st2, r⟩
      rw [h2] at ih
      simpa [hydrateK8sStringData, h2, sameShapeF, sameShapeV, sameShapeF_refl m] using ih

theorem getMapField_lookup {fs : Fields} {k : String} {m : Fields}
    (h : getMapField fs k = some m) : lookupField fs k = some (.vmap m) := by
  unfold getMapField at h
  split at h <;> simp_all

theorem hydrateSDPart_shape (ps : PStore) (st : PState) (fs : Fields) :
    ∀ (sdM : Option Fields),
    (∀ sm, sdM = some sm → lookupField fs "stringData" = some (.vmap sm)) →
    sameShapeF fs (hydrateSDPart ps st fs sdM).1 = true
  | none, _ => by simp [hydrateSDPart, sameShapeF_refl]
  | some sm, hl => by
      have hs := hydrateK8sStringData_shape ps st sm
      rcases h : hydrateK8sStringData ps st sm with ⟨sm1, st1, r⟩
      rw [h] at hs
      simp only [hydrateSDPart, h]
      exact setField_shape fs "stringData" (hl sm rfl) (by simpa [sameShapeV] using hs)

theorem hydrateK8sObject_shape (ps : PStore) (st : PState) (fs : Fields) :
    sameShapeF fs (hydrateK8sObject ps st fs).1 = true := by
  unfold hydrateK8sObject
  by_cases hkind : getStringField fs "kind" = "ConfigMap" ∨ getStringField fs "kind" = "Secret"
  · simp only [hkind, if_true]
    match hmd : getMapField fs "metadata" with
    | none => exact sameShapeF_refl fs
    | some md =>
      dsimp only
      match hdm : getMapField fs "data" with
      | some dm =>
        dsimp only
        have hshape := hydrateK8sData_shape ps st dm
        rcases h : hydrateK8sData ps st dm with ⟨dm1, st1, r⟩
        rw [h] at hshape
        have hfs1 : sameShapeF fs (setField fs "data" (.vmap dm1)) = true :=
          setField_shape fs "data" (getMapField_lookup hdm)
            (by simpa [sameShapeV] using hshape)
        match r with
        | .ok =>
          dsimp only
          refine sameShapeF_trans hfs1 ?_
          refine hydrateSDPart_shape ps st1 _ _ (fun sm hsm => ?_)
          rw [lookupField_setField_other fs _ (by decide)]
          exact getMapField_lookup (hsm ▸ rfl)
        | .err e => exact hfs1
        | .fatal e => exact hfs1
      | none =>
        dsimp only
        refine hydrateSDPart_shape ps st fs _ (fun sm hsm => ?_)
        exact getMapField_lookup (hsm ▸ rfl)
  · simp only [hkind, if_false]
    by_cases hempty : getStringField fs "kind" = ""
    · simp only [hempty, if_true]
      exact hydrateFields_shape ps [] st fs
    · simp only [hempty, if_false]
      exact sameShapeF_refl fs

theorem hydrateData_shape (ps : PStore) (st : PState) (fs : Fields) (k8s : Bool) :
    sameShapeF fs (hydrateData ps st fs k8s).1 = true := by
  unfold hydrateData
  cases k8s with
  | true => simpa using hydrateK8sObject_shape ps st fs
  | false => simpa using hydrateFields_shape ps [] st fs

/-- Claim C10: for every document and both modes, hydration preserves the
key set (and order) of every map node at every depth; no map entry is
inserted or deleted, the only mutations replace existing string values by
strings, and every non-string, non-map value is kept identical — the
document's shape is invariant. (Proved without even assuming success:
the document state returned alongside an error keeps the shape too.) -/
theorem c10_hydrate_preserves_shape (ps : PStore) (st : PState) (fs : Fields) (k8s : Bool) :
    sameShapeF fs (hydrateData ps st fs k8s).1 = true ∧
    fieldKeys (hydrateData ps st fs k8s).1 = fieldKeys fs :=
  ⟨hydrateData_shape ps st fs k8s,
   (sameShapeF_keys (hydrateData_shape ps st fs k8s)).symm⟩

/-- Claim C9: in both modes, values that are neither strings nor maps
(numbers, booleans, nulls, arrays) are left untouched at every depth;
in particular arrays are never descended into, so a secret-reference
marker inside an array element survives hydration unresolved. -/
theorem c9_non_string_values_untouched (ps : PStore) (st : PState) (fs : Fields)
    (k8s : Bool) (path : List String) (v : Value)
    (hget : getPath fs path = some v) (hu : untouchedKind v = true) :
    getPath (hydrateData ps st fs k8s).1 path = some v :=
  sameShapeF_getPath path (hydrateData_shape ps st fs k8s) hget hu

theorem c9_witness :
    getPath docW9 ["cfg", "arr"] = some (.varr (.vcons (.str "$SECRET:/x") .vnil)) ∧
    untouchedKind (.varr (.vcons (.str "$SECRET:/x") .vnil)) = true ∧
    getPath (hydrateData psW9 st0 docW9 false).1 ["cfg", "arr"] =
      some (.varr (.vcons (.str "$SECRET:/x") .vnil)) :=
  ⟨by decide, by decide,
   c9_non_string_values_untouched psW9 st0 docW9 false ["cfg", "arr"] _
     (by decide) (by decide)⟩

/-- Claim C4: in Kubernetes mode, a document whose `kind` is a non-empty
string other than `ConfigMap`/`Secret` fails with the unsupported-kind
error, with the document (and the run state) returned exactly as given:
no partial mutation is observable. -/
theorem c4_unsupported_kind_fails_unchanged (ps : PStore) (st : PState) (fs : Fields)
    (h1 : getStringField fs "kind" ≠ "") (h2 : getStringField fs "kind" ≠ "ConfigMap")
    (h3 : getStringField fs "kind" ≠ "Secret") :
    hydrateData ps st fs true = (fs, st, .err (.unsupportedKind (getStringField fs "kind"))) := by
  unfold hydrateData hydrateK8sObject
  simp [h1, h2, h3]

theorem c4_witness :
    hydrateData psW4 st0 docW4 true = (docW4, st0, .err (.unsupportedKind "Job")) :=
  c4_unsupported_kind_fails_unchanged psW4 st0 docW4 (by decide) (by decide) (by decide)

/-- Writing back the value a key already holds is a no-op. -/
theorem setField_self : ∀ (fs : Fields) {key : String} {v : Value},
    lookupField fs key = some v → setField fs key v = fs
  | .fnil, _, _, _ => rfl
  | .fcons k w rest, key, v, hl => by
      by_cases hk : k = key
      · simp only [lookupField, if_pos hk] at hl
        cases hl
        simp [setField, if_pos hk]
      · simp only [lookupField, if_neg hk] at hl
        simp [setField, if_neg hk, setField_self rest hl]

theorem lookupCache_none : ∀ (c : List (String × String)) (k : String),
    lookupCache c k = none → k ∉ cacheKeys c
  | [], _, _ => by simp [cacheKeys]
  | (k0, v0) :: rest, k, h => by
      simp only [lookupCache] at h
      by_cases hk : k0 = k
      · rw [if_pos hk] at h; cases h
      · rw [if_neg hk] at h
        intro hm
        simp only [cacheKeys, List.map_cons, List.mem_cons] at hm
        rcases hm with h1 | h2
        · exact hk h1.symm
        · exact lookupCache_none rest k h (by simpa [cacheKeys] using h2)

theorem nodup_concat_of {l : List String} {a : String}
    (h1 : l.Nodup) (h2 : a ∉ l) : (l ++ [a]).Nodup := by
  simp [List.nodup_append, h1, h2]

theorem getSecret_inv (ps : PStore) (st : PState) (key : String)
    (h : CacheInv st) : einv (getSecret ps st key) := by
  unfold getSecret
  match normalizeKey ps key with
  | .error e => exact h.1
  | .ok nkey =>
    dsimp only
    match hc : lookupCache st.secrets nkey with
    | some v => exact h
    | none =>
      dsimp only
      have hnk : nkey ∉ st.calls := fun hm => lookupCache_none _ _ hc (h.2 nkey hm)
      match ps.provider nkey with
      | .error msg => exact nodup_concat_of h.1 hnk
      | .ok v =>
        refine ⟨nodup_concat_of h.1 hnk, fun p hp => ?_⟩
        simp only [cacheKeys, List.map_append] at *
        rcases List.mem_append.mp hp with hp1 | hp2
        · exact List.mem_append.mpr (Or.inl (h.2 p hp1))
        · simp only [List.mem_singleton] at hp2
          subst hp2
          exact List.mem_append.mpr (Or.inr (by simp))

theorem hydrateKeyValue_inv (ps : PStore) (st : PState) (key value : String)
    (h : CacheInv st) : einv (hydrateKeyValue ps st key value) := by
  unfold hydrateKeyValue
  by_cases h1 : value = "$$" ∨ value = "$SECRET"
  · simp only [h1, if_true]
    have hg := getSecret_inv ps st key h
    rcases hgs : getSecret ps st key with ⟨res, st1⟩
    rw [hgs] at hg
    match res with
    | .ok s => exact hg
    | .error e => exact hg
  · simp only [h1, if_false]
    by_cases h2 : beginsWith value "$SECRET:" = true
    · simp only [h2, if_true]
      have hg := getSecret_inv ps st (dropMarker value) h
      rcases hgs : getSecret ps st (dropMarker value) with ⟨res, st1⟩
      rw [hgs] at hg
      match res with
      | .ok s => exact hg
      | .error e => exact hg
    · simp only [h2, if_false]
      exact h

theorem hydrateFields_inv : ∀ (ps : PStore) (path : List String) (st : PState) (fs : Fields),
    CacheInv st → rinv (hydrateFields ps path st fs)
  | ps, path, st, .fnil, h => by simpa [hydrateFields, rinv] using h
  | ps, path, st, .fcons key (.str s) rest, h => by
      have hk := hydrateKeyValue_inv ps st key s h
      rcases hkv : hydrateKeyValue ps st key s with ⟨res, st1⟩
      rw [hkv] at hk
      match res with
      | .error e => simpa [hydrateFields, hkv, rinv] using hk
      | .ok none =>
        have ih := hydrateFields_inv ps path st1 rest hk
        rcases h2 : hydrateFields ps path st1 rest with ⟨rest1, st2, r⟩
        rw [h2] at ih
        match r with
        | .ok => simpa [hydrateFields, hkv, h2, rinv] using ih
        | .err e => simpa [hydrateFields, hkv, h2, rinv] using ih
        | .fatal e => simpa [hydrateFields, hkv, h2, rinv] using ih
      | .ok (some sec) =>
        have ih := hydrateFields_inv ps path st1 rest hk
        rcases h2 : hydrateFields ps path st1 rest with ⟨rest1, st2, r⟩
        rw [h2] at ih
        match r with
        | .ok => simpa [hydrateFields, hkv, h2, rinv] using ih
        | .err e => simpa [hydrateFields, hkv, h2, rinv] using ih
        | .fatal e => simpa [hydrateFields, hkv, h2, rinv] using ih
  | ps, path, st, .fcons key (.vmap m) rest, h => by
      have ihm := hydrateFields_inv ps (path ++ [key]) st m h
      rcases h1 : hydrateFields ps (path ++ [key]) st m with ⟨m1, st1, r⟩
      rw [h1] at ihm
      match r with
      | .ok =>
        have ih := hydrateFields_inv ps path st1 rest ihm
        rcases h2 : hydrateFields ps path st1 rest with ⟨rest1, st2, r2⟩
        rw [h2] at ih
        match r2 with
        | .ok => simpa [hydrateFields, h1, h2, rinv] using ih
        | .err e => simpa [hydrateFields, h1, h2, rinv] using ih
        | .fatal e => simpa [hydrateFields, h1, h2, rinv] using ih
      | .err e => simpa [hydrateFields, h1, rinv] using ihm
      | .fatal e => simpa [hydrateFields, h1, rinv] using ihm
  | ps, path, st, .fcons key (.vint n) rest, h => by
      have ih := hydrateFields_inv ps path st rest h
      rcases h2 : hydrateFields ps path st rest with ⟨rest1, st2, r⟩
      rw [h2] at ih
      match r with
      | .ok => simpa [hydrateFields, h2, rinv] using ih
      | .err e => simpa [hydrateFields, h2, rinv] using ih
      | .fatal e => simpa [hydrateFields, h2, rinv] using ih
  | ps, path, st, .fcons key (.vbool b) rest, h => by
      have ih := hydrateFields_inv ps path st rest h
      rcases h2 : hydrateFields ps path st rest with ⟨rest1, st2, r⟩
      rw [h2] at ih
      match r with
      | .ok => simpa [hydrateFields, h2, rinv] using ih
      | .err e => simpa [hydrateFields, h2, rinv] using ih
      | .fatal e => simpa [hydrateFields, h2, rinv] using ih
  | ps, path, st, .fcons key .vnull rest, h => by
      have ih := hydrateFields_inv ps path st rest h
      rcases h2 : hydrateFields ps path st rest with ⟨rest1, st2, r⟩
      rw [h2] at ih
      match r with
      | .ok => simpa [hydrateFields, h2, rinv] using ih
      | .err e => simpa [hydrateFields, h2, rinv] using ih
      | .fatal e => simpa [hydrateFields, h2, rinv] using ih
  | ps, path, st, .fcons key (.varr l) rest, h => by
      have ih := hydrateFields_inv ps path st rest h
      rcases h2 : hydrateFields ps path st rest with ⟨rest1, st2, r⟩
      rw [h2] at ih
      match r with
      | .ok => simpa [hydrateFields, h2, rinv] using ih
      | .err e => simpa [hydrateFields, h2, rinv] using ih
      | .fatal e => simpa [hydrateFields, h2, rinv] using ih

theorem hydrateFile_inv (ps : PStore) (format content : String) (st : PState)
    (h : CacheInv st) : einv (hydrateFile ps format content st) := by
  unfold hydrateFile
  by_cases hf : knownFormat format = true
  · simp only [hf, if_true]
    match (ps.codecs format).dec content with
    | .error msg => exact h.1
    | .ok doc =>
      dsimp only
      have hw := hydrateFields_inv ps [] st doc h
      rcases h1 : hydrateFields ps [] st doc with ⟨doc1, st1, r⟩
      rw [h1] at hw
      match r with
      | .ok => exact hw
      | .err e => exact hw
      | .fatal e => exact hw
  · simp only [hf, if_false]
    exact h.1

theorem hydrateK8sData_inv : ∀ (ps : PStore) (st : PState) (fs : Fields),
    CacheInv st → rinv (hydrateK8sData ps st fs)
  | ps, st, .fnil, h => by simpa [hydrateK8sData, rinv] using h
  | ps, st, .fcons key (.str s) rest, h => by
      match hd : base64DecodeStr s with
      | none => simpa [hydrateK8sData, hd, rinv] using h.1
      | some decoded =>
        by_cases hf : knownFormat (keyFormat key) = true
        · have hfile := hydrateFile_inv ps (keyFormat key) decoded st h
          rcases h1 : hydrateFile ps (keyFormat key) decoded st with ⟨fres, st1⟩
          rw [h1] at hfile
          match fres with
          | .error e => simpa [hydrateK8sData, hd, hf, h1, rinv] using hfile
          | .ok out =>
            have ih := hydrateK8sData_inv ps st1 rest hfile
            rcases h2 : hydrateK8sData ps st1 rest with ⟨rest1, st2, r⟩
            rw [h2] at ih
            match r with
            | .ok => simpa [hydrateK8sData, hd, hf, h1, h2, rinv] using ih
            | .err e => simpa [hydrateK8sData, hd, hf, h1, h2, rinv] using ih
            | .fatal e => simpa [hydrateK8sData, hd, hf, h1, h2, rinv] using ih
        · have hk := hydrateKeyValue_inv ps st key decoded h
          rcases h1 : hydrateKeyValue ps st key decoded with ⟨res, st1⟩
          rw [h1] at hk
          match res with
          | .error e => simpa [hydrateK8sData, hd, hf, h1, rinv] using hk
          | .ok none =>
            have ih := hydrateK8sData_inv ps st1 rest hk
            rcases h2 : hydrateK8sData ps st1 rest with ⟨rest1, st2, r⟩
            rw [h2] at ih
            match r with
            | .ok => simpa [hydrateK8sData, hd, hf, h1, h2, rinv] using ih
            | .err e => simpa [hydrateK8sData, hd, hf, h1, h2, rinv] using ih
            | .fatal e => simpa [hydrateK8sData, hd, hf, h1, h2, rinv] using ih
          | .ok (some sec) =>
            have ih := hydrateK8sData_inv ps st1 rest hk
            rcases h2 : hydrateK8sData ps st1 rest with ⟨rest1, st2, r⟩
            rw [h2] at ih
            match r with
            | .ok => simpa [hydrateK8sData, hd, hf, h1, h2, rinv] using ih
            | .err e => simpa [hydrateK8sData, hd, hf, h1, h2, rinv] using ih
            | .fatal e => simpa [hydrateK8sData, hd, hf, h1, h2, rinv] using ih
  | ps, st, .fcons key (.vint n) rest, h => by
      have ih := hydrateK8sData_inv ps st rest h
      rcases h2 : hydrateK8sData ps st rest with ⟨rest1, st2, r⟩
      rw [h2] at ih
      match r with
      | .ok => simpa [hydrateK8sData, h2, rinv] using ih
      | .err e => simpa [hydrateK8sData, h2, rinv] using ih
      | .fatal e => simpa [hydrateK8sData, h2, rinv] using ih
  | ps, st, .fcons key (.vbool b) rest, h => by
      have ih := hydrateK8sData_inv ps st rest h
      rcases h2 : hydrateK8sData ps st rest with ⟨rest1, st2, r⟩
      rw [h2] at ih
      match r with
      | .ok => simpa [hydrateK8sData, h2, rinv] using ih
      | .err e => simpa [hydrateK8sData, h2, rinv] using ih
      | .fatal e => simpa [hydrateK8sData, h2, rinv] using ih
  | ps, st, .fcons key .vnull rest, h => by
      have ih := hydrateK8sData_inv ps st rest h
      rcases h2 : hydrateK8sData ps st rest with ⟨rest1, st2, r⟩
      rw [h2] at ih
      match r with
      | .ok => simpa [hydrateK8sData, h2, rinv] using ih
      | .err e => simpa [hydrateK8sData, h2, rinv] using ih
      | .fatal e => simpa [hydrateK8sData, h2, rinv] using ih
  | ps, st, .fcons key (.varr l) rest, h => by
      have ih := hydrateK8sData_inv ps st rest h
      rcases h2 : hydrateK8sData ps st rest with ⟨rest1, st2, r⟩
      rw [h2] at ih
      match r with
      | .ok => simpa [hydrateK8sData, h2, rinv] using ih
      | .err e => simpa [hydrateK8sData, h2, rinv] using ih
      | .fatal e => simpa [hydrateK8sData, h2, rinv] using ih
  | ps, st, .fcons key (.vmap m) rest, h => by
      have ih := hydrateK8sData_inv ps st rest h
      rcases h2 : hydrateK8sData ps st rest with ⟨rest1, st2, r⟩
      rw [h2] at ih
      match r with
      | .ok => simpa [hydrateK8sData, h2, rinv] using ih
      | .err e => simpa [hydrateK8sData, h2, rinv] using ih
      | .fatal e => simpa [hydrateK8sData, h2, rinv] using ih

theorem hydrateK8sStringData_inv : ∀ (ps : PStore) (st : PState) (fs : Fields),
    CacheInv st → rinv (hydrateK8sStringData ps st fs)
  | ps, st, .fnil, h => by simpa [hydrateK8sStringData, rinv] using h
  | ps, st, .fcons key (.str s) rest, h => by
      by_cases hf : knownFormat (keyFormat key) = true
      · have hfile := hydrateFile_inv ps (keyFormat key) s st h
        rcases h1 : hydrateFile ps (keyFormat key) s st with ⟨fres, st1⟩
        rw [h1] at hfile
        match fres with
        | .error e => simpa [hydrateK8sStringData, hf, h1, rinv] using hfile
        | .ok out =>
          have ih := hydrateK8sStringData_inv ps st1 rest hfile
          rcases h2 : hydrateK8sStringData ps st1 rest with ⟨rest1, st2, r⟩
          rw [h2] at ih
          match r with
          | .ok => simpa [hydrateK8sStringData, hf, h1, h2, rinv] using ih
          | .err e => simpa [hydrateK8sStringData, hf, h1, h2, rinv] using ih
          | .fatal e => simpa [hydrateK8sStringData, hf, h1, h2, rinv] using ih
      · have hk := hydrateKeyValue_inv ps st key s h
        rcases h1 : hydrateKeyValue ps st key s with ⟨res, st1⟩
        rw [h1] at hk
        match res with
        | .error e => simpa [hydrateK8sStringData, hf, h1, rinv] using hk
        | .ok none =>
          have ih := hydrateK8sStringData_inv ps st1 rest hk
          rcases h2 : hydrateK8sStringData ps st1 rest with ⟨rest1, st2, r⟩
          rw [h2] at ih
          match r with
          | .ok => simpa [hydrateK8sStringData, hf, h1, h2, rinv] using ih
          | .err e => simpa [hydrateK8sStringData, hf, h1, h2, rinv] using ih
          | .fatal e => simpa [hydrateK8sStringData, hf, h1, h2, rinv] using ih
        | .ok (some sec) =>
          have ih := hydrateK8sStringData_inv ps st1 rest hk
          rcases h2 : hydrateK8sStringData ps st1 rest with ⟨rest1, st2, r⟩
          rw [h2] at ih
          match r with
          | .ok => simpa [hydrateK8sStringData, hf, h1, h2, rinv] using ih
          | .err e => simpa [hydrateK8sStringData, hf, h1, h2, rinv] using ih
          | .fatal e => simpa [hydrateK8sStringData, hf, h1, h2, rinv] using ih
  | ps, st, .fcons key (.vint n) rest, h => by
      have ih := hydrateK8sStringData_inv ps st rest h
      rcases h2 : hydrateK8sStringData ps st rest with ⟨rest1, st2, r⟩
      rw [h2] at ih
      match r with
      | .ok => simpa [hydrateK8sStringData, h2, rinv] using ih
      | .err e => simpa [hydrateK8sStringData, h2, rinv] using ih
      | .fatal e => simpa [hydrateK8sStringData, h2, rinv] using ih
  | ps, st, .fcons key (.vbool b) rest, h => by
      have ih := hydrateK8sStringData_inv ps st rest h
      rcases h2 : hydrateK8sStringData ps st rest with ⟨rest1, st2, r⟩
      rw [h2] at ih
      match r with
      | .ok => simpa [hydrateK8sStringData, h2, rinv] using ih
      | .err e => simpa [hydrateK8sStringData, h2, rinv] using ih
      | .fatal e => simpa [hydrateK8sStringData, h2, rinv] using ih
  | ps, st, .fcons key .vnull rest, h => by
      have ih := hydrateK8sStringData_inv ps st rest h
      rcases h2 : hydrateK8sStringData ps st rest with ⟨rest1, st2, r⟩
      rw [h2] at ih
      match r with
      | .ok => simpa [hydrateK8sStringData, h2, rinv] using ih
      | .err e => simpa [hydrateK8sStringData, h2, rinv] using ih
      | .fatal e => simpa [hydrateK8sStringData, h2, rinv] using ih
  | ps, st, .fcons key (.varr l) rest, h => by
      have ih := hydrateK8sStringData_inv ps st rest h
      rcases h2 : hydrateK8sStringData ps st rest with ⟨rest1, st2, r⟩
      rw [h2] at ih
      match r with
      | .ok => simpa [hydrateK8sStringData, h2, rinv] using ih
      | .err e => simpa [hydrateK8sStringData, h2, rinv] using ih
      | .fatal e => simpa [hydrateK8sStringData, h2, rinv] using ih
  | ps, st, .fcons key (.vmap m) rest, h => by
      have ih := hydrateK8sStringData_inv ps st rest h
      rcases h2 : hydrateK8sStringData ps st rest with ⟨rest1, st2, r⟩
      rw [h2] at ih
      match r with
      | .ok => simpa [hydrateK8sStringData, h2, rinv] using ih
      | .err e => simpa [hydrateK8sStringData, h2, rinv] using ih
      | .fatal e => simpa [hydrateK8sStringData, h2, rinv] using ih

theorem hydrateSDPart_inv (ps : PStore) (st : PState) (fs : Fields) :
    ∀ (sdM : Option Fields), CacheInv st → rinv (hydrateSDPart ps st fs sdM)
  | none, h => by simpa [hydrateSDPart, rinv] using h
  | some sm, h => by
      have hl := hydrateK8sStringData_inv ps st sm h
      rcases h1 : hydrateK8sStringData ps st sm with ⟨sm1, st1, r⟩
      rw [h1] at hl
      match r with
      | .ok => simpa [hydrateSDPart, h1, rinv] using hl
      | .err e => simpa [hydrateSDPart, h1, rinv] using hl
      | .fatal e => simpa [hydrateSDPart, h1, rinv] using hl

theorem hydrateK8sObject_inv (ps : PStore) (st : PState) (fs : Fields)
    (h : CacheInv st) : rinv (hydrateK8sObject ps st fs) := by
  unfold hydrateK8sObject
  by_cases hkind : getStringField fs "kind" = "ConfigMap" ∨ getStringField fs "kind" = "Secret"
  · simp only [hkind, if_true]
    match getMapField fs "metadata" with
    | none => simpa [rinv] using h.1
    | some md =>
      dsimp only
      match getMapField fs "data" with
      | some dm =>
        dsimp only
        have hd := hydrateK8sData_inv ps st dm h
        rcases h1 : hydrateK8sData ps st dm with ⟨dm1, st1, r⟩
        rw [h1] at hd
        match r with
        | .ok => exact hydrateSDPart_inv ps st1 _ _ hd
        | .err e => simpa [rinv] using hd
        | .fatal e => simpa [rinv] using hd
      | none =>
        dsimp only
        exact hydrateSDPart_inv ps st _ _ h
  · simp only [hkind, if_false]
    by_cases hempty : getStringField fs "kind" = ""
    · simp only [hempty, if_true]
      exact hydrateFields_inv ps [] st fs h
    · simp only [hempty, if_false]
      simpa [rinv] using h.1

theorem hydrateData_inv (ps : PStore) (st : PState) (fs : Fields) (k8s : Bool)
    (h : CacheInv st) : rinv (hydrateData ps st fs k8s) := by
  unfold hydrateData
  cases k8s with
  | true => simpa using hydrateK8sObject_inv ps st fs h
  | false => simpa using hydrateFields_inv ps [] st fs h

theorem rinv_nodup {x : Fields × PState × Res} (h : rinv x) : x.2.1.calls.Nodup := by
  unfold rinv at h
  match hr : x.2.2 with
  | .ok => rw [hr] at h; exact h.1
  | .err e => rw [hr] at h; exact h
  | .fatal e => rw [hr] at h; exact h

/-- Claim C2: across a whole run started on an empty cache, the
provider's `GetParameter` is invoked at most once per distinct normalized
path (the call log has no duplicates, in either mode); and whenever a
normalized path is already cached, `GetSecret` returns the cached value
with no provider call and no state change. -/
theorem c2_provider_called_once_per_path (ps : PStore) (fs : Fields) (k8s : Bool)
    (st : PState) (key p v : String)
    (h1 : normalizeKey ps key = .ok p) (h2 : lookupCache st.secrets p = some v) :
    (hydrateData ps st0 fs k8s).2.1.calls.Nodup ∧
    getSecret ps st key = (.ok v, st) := by
  constructor
  · exact rinv_nodup (hydrateData_inv ps st0 fs k8s
      ⟨List.nodup_nil, fun x hx => absurd hx (List.not_mem_nil x)⟩)
  · unfold getSecret
    rw [h1]
    dsimp only
    rw [h2]

theorem c2_witness :
    (hydrateData psW2 st0 docW2 false).2.1.calls.Nodup ∧
    getSecret psW2 stW2 "k" = (.ok "v", stW2) :=
  c2_provider_called_once_per_path psW2 docW2 false stW2 "k" "/b/k" "v"
    rfl (by decide)

theorem hydrateKeyValue_noRef (ps : PStore) (st : PState) (key s : String)
    (h : isRef s = false) : hydrateKeyValue ps st key s = (.ok none, st) := by
  simp only [isRef, Bool.or_eq_false_iff, decide_eq_false_iff_not] at h
  unfold hydrateKeyValue
  rw [if_neg (not_or.mpr ⟨h.1.1, h.1.2⟩), if_neg (by simp [h.2])]

theorem noRefF_parts {k : String} {v : Value} {rest : Fields}
    (h : noRefF (.fcons k v rest) = true) : noRefV v = true ∧ noRefF rest = true := by
  simpa [noRefF, Bool.and_eq_true] using h

theorem hydrateFields_noop : ∀ (ps : PStore) (path : List String) (st : PState) (fs : Fields),
    noRefF fs = true → hydrateFields ps path st fs = (fs, st, .ok)
  | ps, path, st, .fnil, _ => by simp [hydrateFields]
  | ps, path, st, .fcons key (.str s) rest, h => by
      obtain ⟨hv, hr⟩ := noRefF_parts h
      have hs : isRef s = false := by simpa [noRefV, Bool.not_eq_true'] using hv
      rw [hydrateFields, hydrateKeyValue_noRef ps st key s hs]
      dsimp only
      rw [hydrateFields_noop ps path st rest hr]
  | ps, path, st, .fcons key (.vmap m) rest, h => by
      obtain ⟨hv, hr⟩ := noRefF_parts h
      have hm : noRefF m = true := by simpa [noRefV] using hv
      rw [hydrateFields, hydrateFields_noop ps (path ++ [key]) st m hm]
      dsimp only
      rw [hydrateFields_noop ps path st rest hr]
  | ps, path, st, .fcons key (.vint n) rest, h => by
      obtain ⟨hv, hr⟩ := noRefF_parts h
      rw [hydrateFields]
      case x_1 => intro s heq; cases heq
      case x_2 => intro m heq; cases heq
      dsimp only
      rw [hydrateFields_noop ps path st rest hr]
  | ps, path, st, .fcons key (.vbool b) rest, h => by
      obtain ⟨hv, hr⟩ := noRefF_parts h
      rw [hydrateFields]
      case x_1 => intro s heq; cases heq
      case x_2 => intro m heq; cases heq
      dsimp only
      rw [hydrateFields_noop ps path st rest hr]
  | ps, path, st, .fcons key .vnull rest, h => by
      obtain ⟨hv, hr⟩ := noRefF_parts h
      rw [hydrateFields]
      case x_1 => intro s heq; cases heq
      case x_2 => intro m heq; cases heq
      dsimp only
      rw [hydrateFields_noop ps path st rest hr]
  | ps, path, st, .fcons key (.varr l) rest, h => by
      obtain ⟨hv, hr⟩ := noRefF_parts h
      rw [hydrateFields]
      case x_1 => intro s heq; cases heq
      case x_2 => intro m heq; cases heq
      dsimp only
      rw [hydrateFields_noop ps path st rest hr]

theorem hydrateK8sData_noop : ∀ (ps : PStore) (st : PState) (fs : Fields),
    k8sDataNoop fs = true → hydrateK8sData ps st fs = (fs, st, .ok)
  | ps, st, .fnil, _ => by simp [hydrateK8sData]
  | ps, st, .fcons key (.str s) rest, h => by
      simp only [k8sDataNoop, Bool.and_eq_true] at h
      obtain ⟨hv, hr⟩ := h
      simp only [Bool.and_eq_true, Bool.not_eq_true'] at hv
      obtain ⟨hf, hdec⟩ := hv
      match hd : base64DecodeStr s with
      | none => rw [hd] at hdec; cases hdec
      | some d =>
        rw [hd] at hdec
        simp only [Bool.not_eq_true'] at hdec
        rw [hydrateK8sData, hd]
        dsimp only
        rw [if_neg (by simp [hf]), hydrateKeyValue_noRef ps st key d hdec]
        dsimp only
        rw [hydrateK8sData_noop ps st rest (by simpa [k8sDataNoop] using hr)]
  | ps, st, .fcons key (.vint n) rest, h => by
      simp only [k8sDataNoop, Bool.and_eq_true] at h
      rw [hydrateK8sData]
      case x_1 => intro s heq; cases heq
      dsimp only
      rw [hydrateK8sData_noop ps st rest (by simpa [k8sDataNoop] using h.2)]
  | ps, st, .fcons key (.vbool b) rest, h => by
      simp only [k8sDataNoop, Bool.and_eq_true] at h
      rw [hydrateK8sData]
      case x_1 => intro s heq; cases heq
      dsimp only
      rw [hydrateK8sData_noop ps st rest (by simpa [k8sDataNoop] using h.2)]
  | ps, st, .fcons key .vnull rest, h => by
      simp only [k8sDataNoop, Bool.and_eq_true] at h
      rw [hydrateK8sData]
      case x_1 => intro s heq; cases heq
      dsimp only
      rw [hydrateK8sData_noop ps st rest (by simpa [k8sDataNoop] using h.2)]
  | ps, st, .fcons key (.varr l) rest, h => by
      simp only [k8sDataNoop, Bool.and_eq_true] at h
      rw [hydrateK8sData]
      case x_1 => intro s heq; cases heq
      dsimp only
      rw [hydrateK8sData_noop ps st rest (by simpa [k8sDataNoop] using h.2)]
  | ps, st, .fcons key (.vmap m) rest, h => by
      simp only [k8sDataNoop, Bool.and_eq_true] at h
      rw [hydrateK8sData]
      case x_1 => intro s heq; cases heq
      dsimp only
      rw [hydrateK8sData_noop ps st rest (by simpa [k8sDataNoop] using h.2)]

theorem hydrateK8sStringData_noop : ∀ (ps : PStore) (st : PState) (fs : Fields),
    k8sSDNoop fs = true → hydrateK8sStringData ps st fs = (fs, st, .ok)
  | ps, st, .fnil, _ => by simp [hydrateK8sStringData]
  | ps, st, .fcons key (.str s) rest, h => by
      simp only [k8sSDNoop, Bool.and_eq_true, Bool.not_eq_true'] at h
      obtain ⟨⟨hf, hs⟩, hr⟩ := h
      rw [hydrateK8sStringData, if_neg (by simp [hf]),
          hydrateKeyValue_noRef ps st key s hs]
      dsimp only
      rw [hydrateK8sStringData_noop ps st rest (by simpa [k8sSDNoop] using hr)]
  | ps, st, .fcons key (.vint n) rest, h => by
      simp only [k8sSDNoop, Bool.and_eq_true] at h
      rw [hydrateK8sStringData]
      case x_1 => intro s heq; cases heq
      dsimp only
      rw [hydrateK8sStringData_noop ps st rest (by simpa [k8sSDNoop] using h.2)]
  | ps, st, .fcons key (.vbool b) rest, h => by
      simp only [k8sSDNoop, Bool.and_eq_true] at h
      rw [hydrateK8sStringData]
      case x_1 => intro s heq; cases heq
      dsimp only
      rw [hydrateK8sStringData_noop ps st rest (by simpa [k8sSDNoop] using h.2)]
  | ps, st, .fcons key .vnull rest, h => by
      simp only [k8sSDNoop, Bool.and_eq_true] at h
      rw [hydrateK8sStringData]
      case x_1 => intro s heq; cases heq
      dsimp only
      rw [hydrateK8sStringData_noop ps st rest (by simpa [k8sSDNoop] using h.2)]
  | ps, st, .fcons key (.varr l) rest, h => by
      simp only [k8sSDNoop, Bool.and_eq_true] at h
      rw [hydrateK8sStringData]
      case x_1 => intro s heq; cases heq
      dsimp only
      rw [hydrateK8sStringData_noop ps st rest (by simpa [k8sSDNoop] using h.2)]
  | ps, st, .fcons key (.vmap m) rest, h => by
      simp only [k8sSDNoop, Bool.and_eq_true] at h
      rw [hydrateK8sStringData]
      case x_1 => intro s heq; cases heq
      dsimp only
      rw [hydrateK8sStringData_noop ps st rest (by simpa [k8sSDNoop] using h.2)]

theorem hydrateK8sObject_noop (ps : PStore) (st : PState) (fs : Fields)
    (hno : noRefF fs = true) (hk : k8sNoopCond fs = true) :
    hydrateK8sObject ps st fs = (fs, st, .ok) := by
  unfold hydrateK8sObject
  unfold k8sNoopCond at hk
  by_cases hkind : getStringField fs "kind" = "ConfigMap" ∨ getStringField fs "kind" = "Secret"
  · simp only [hkind, if_true] at hk ⊢
    simp only [Bool.and_eq_true] at hk
    obtain ⟨⟨hmd, hdata⟩, hsd⟩ := hk
    match hm : getMapField fs "metadata" with
    | none => rw [hm] at hmd; cases hmd
    | some md =>
      dsimp only
      match hd : getMapField fs "data" with
      | some dm =>
        rw [hd] at hdata
        dsimp only
        rw [hydrateK8sData_noop ps st dm hdata]
        dsimp only
        rw [setField_self fs (getMapField_lookup hd)]
        match hs : getMapField fs "stringData" with
        | some sm =>
          rw [hs] at hsd
          rw [hydrateSDPart, hydrateK8sStringData_noop ps st sm hsd]
          dsimp only
          rw [setField_self fs (getMapField_lookup hs)]
        | none => rw [hydrateSDPart]
      | none =>
        dsimp only
        match hs : getMapField fs "stringData" with
        | some sm =>
          rw [hs] at hsd
          rw [hydrateSDPart, hydrateK8sStringData_noop ps st sm hsd]
          dsimp only
          rw [setField_self fs (getMapField_lookup hs)]
        | none => rw [hydrateSDPart]
  · simp only [hkind, if_false] at hk ⊢
    by_cases hempty : getStringField fs "kind" = ""
    · simp only [hempty, if_true]
      exact hydrateFields_noop ps [] st fs hno
    · simp only [hempty, if_false] at hk
      cases hk

/-- Claim C1 (amended): for a document containing no reference markers,
plain-mode hydration is the identity on document, state and outcome; and
Kubernetes-mode hydration is the identity provided additionally that the
manifest has a supported (or empty) kind with a metadata map, every
string value of a present `data` group is valid base64 decoding to a
non-marker, and no `data`/`stringData` key carries a structured-format
extension (`json`/`yml`/`yaml`/`toml`) — a structured file value is
decoded, hydrated and re-encoded even when marker-free, which need not
reproduce the original bytes. -/
theorem c1_no_markers_no_op (ps : PStore) (st : PState) (fs : Fields)
    (hno : noRefF fs = true) :
    hydrateData ps st fs false = (fs, st, .ok) ∧
    (k8sNoopCond fs = true → hydrateData ps st fs true = (fs, st, .ok)) := by
  constructor
  · unfold hydrateData
    simpa using hydrateFields_noop ps [] st fs hno
  · intro hk
    unfold hydrateData
    simpa using hydrateK8sObject_noop ps st fs hno hk

theorem c1_witness :
    hydrateData psW1 st0 docW1 false = (docW1, st0, .ok) ∧
    hydrateData psW1 st0 docW1 true = (docW1, st0, .ok) :=
  ⟨(c1_no_markers_no_op psW1 st0 docW1 (by decide)).1,
   (c1_no_markers_no_op psW1 st0 docW1 (by decide)).2 (by decide)⟩

/-- Claim C1 counterexample: `docC1` contains no reference markers, yet
Kubernetes-mode hydration succeeds with an output that does not
deep-equal the input — the structured `cfg.toml` value is decoded,
hydrated (a no-op) and re-encoded, and the re-encoded bytes differ from
the original. -/
theorem c1_counterexample :
    noRefF docC1 = true ∧
    (hydrateData psC1 st0 docC1 true).2.2 = .ok ∧
    (hydrateData psC1 st0 docC1 true).1 ≠ docC1 :=
  ⟨by decide, by decide, by decide⟩

theorem lookupField_setField : ∀ (fs : Fields) (K k : String) (V : Value),
    lookupField (setField fs K V) k =
      if k = K then (lookupField fs K).map (fun _ => V) else lookupField fs k
  | .fnil, K, k, V => by simp [setField, lookupField]
  | .fcons k0 v rest, K, k, V => by
      by_cases h0 : k0 = K
      · subst h0
        by_cases hk : k0 = k
        · subst hk
          simp [setField, lookupField]
        · have hk' : ¬ k = k0 := fun h => hk h.symm
          simp [setField, lookupField, hk, hk']
      · by_cases hk : k0 = k
        · subst hk
          simp [setField, lookupField, h0, fun h : k0 = K => h0 h]
        · simp [setField, lookupField, h0, hk, lookupField_setField rest K k V]

theorem getMapField_congr {a b : Fields} {k : String}
    (h : lookupField a k = lookupField b k) : getMapField a k = getMapField b k := by
  unfold getMapField
  rw [h]

theorem getStringField_congr {a b : Fields} {k : String}
    (h : lookupField a k = lookupField b k) : getStringField a k = getStringField b k := by
  unfold getStringField
  rw [h]

theorem hydrateK8sObject_congr_metadata (ps : PStore) (st : PState)
    {fs1 fs2 : Fields} {md1 md2 : Fields}
    (hkind : getStringField fs1 "kind" = "ConfigMap" ∨ getStringField fs1 "kind" = "Secret")
    (hkeq : getStringField fs2 "kind" = getStringField fs1 "kind")
    (hm1 : getMapField fs1 "metadata" = some md1)
    (hm2 : getMapField fs2 "metadata" = some md2)
    (hagree : ∀ k, k ≠ "metadata" → lookupField fs1 k = lookupField fs2 k) :
    (hydrateK8sObject ps st fs1).2 = (hydrateK8sObject ps st fs2).2 ∧
    (∀ k, k ≠ "metadata" →
      lookupField (hydrateK8sObject ps st fs1).1 k =
      lookupField (hydrateK8sObject ps st fs2).1 k) := by
  have hd12 : getMapField fs2 "data" = getMapField fs1 "data" :=
    (getMapField_congr (hagree "data" (by decide))).symm
  have hs12 : getMapField fs2 "stringData" = getMapField fs1 "stringData" :=
    (getMapField_congr (hagree "stringData" (by decide))).symm
  unfold hydrateK8sObject
  rw [hkeq, if_pos hkind, if_pos hkind, hm1, hm2, hd12, hs12]
  dsimp only
  match hd : getMapField fs1 "data" with
  | some dm =>
    dsimp only
    rcases hk8 : hydrateK8sData ps st dm with ⟨dm1, st1, r⟩
    match r with
    | .ok =>
      dsimp only
      match hsd : getMapField fs1 "stringData" with
      | some sm =>
        rw [hydrateSDPart, hydrateSDPart]
        rcases hk9 : hydrateK8sStringData ps st1 sm with ⟨sm1, st2, r2⟩
        dsimp only
        refine ⟨rfl, fun k hk => ?_⟩
        simp [lookupField_setField, hagree "data" (by decide),
              hagree "stringData" (by decide), hagree k hk]
      | none =>
        rw [hydrateSDPart, hydrateSDPart]
        refine ⟨rfl, fun k hk => ?_⟩
        simp [lookupField_setField, hagree "data" (by decide), hagree k hk]
    | .err e =>
      dsimp only
      refine ⟨rfl, fun k hk => ?_⟩
      simp [lookupField_setField, hagree "data" (by decide), hagree k hk]
    | .fatal e =>
      dsimp only
      refine ⟨rfl, fun k hk => ?_⟩
      simp [lookupField_setField, hagree "data" (by decide), hagree k hk]
  | none =>
    dsimp only
    match hsd : getMapField fs1 "stringData" with
    | some sm =>
      rw [hydrateSDPart, hydrateSDPart]
      rcases hk9 : hydrateK8sStringData ps st sm with ⟨sm1, st2, r2⟩
      dsimp only
      refine ⟨rfl, fun k hk => ?_⟩
      simp [lookupField_setField, hagree "stringData" (by decide), hagree k hk]
    | none =>
      rw [hydrateSDPart, hydrateSDPart]
      exact ⟨rfl, fun k hk => hagree k hk⟩

theorem hydrateData_true (ps : PStore) (st : PState) (fs : Fields) :
    hydrateData ps st fs true = hydrateK8sObject ps st fs := by
  simp [hydrateData]

theorem hydrateData_false (ps : PStore) (st : PState) (fs : Fields) :
    hydrateData ps st fs false = hydrateFields ps [] st fs := by
  simp [hydrateData]

/-- Claim C5 (amended): for a ConfigMap/Secret manifest the `metadata`
map itself is required — a manifest without it fails with the
missing-metadata error and is returned unmodified — but the map's content
(in particular the presence or value of `name`) is irrelevant: two
manifests differing only in their metadata map hydrate to the same run
state and outcome, with identical values at every key other than
`metadata` (so identical `data`/`stringData` results). -/
theorem c5_metadata_map_required_name_irrelevant (ps : PStore) (st : PState)
    (fsA fsB : Fields) (m1 m2 : Fields) (v0 : Value)
    (hkA : getStringField fsA "kind" = "ConfigMap" ∨ getStringField fsA "kind" = "Secret")
    (hmA : getMapField fsA "metadata" = none)
    (hkB : getStringField fsB "kind" = "ConfigMap" ∨ getStringField fsB "kind" = "Secret")
    (hmB : lookupField fsB "metadata" = some v0) :
    hydrateData ps st fsA true =
      (fsA, st, .err (.missingMetadata (lowerStr (getStringField fsA "kind")))) ∧
    ((hydrateData ps st (setField fsB "metadata" (.vmap m1)) true).2 =
       (hydrateData ps st (setField fsB "metadata" (.vmap m2)) true).2 ∧
     ∀ k, k ≠ "metadata" →
       lookupField (hydrateData ps st (setField fsB "metadata" (.vmap m1)) true).1 k =
       lookupField (hydrateData ps st (setField fsB "metadata" (.vmap m2)) true).1 k) := by
  constructor
  · rw [hydrateData_true]
    unfold hydrateK8sObject
    rw [if_pos hkA, hmA]
  · have hkeq1 : getStringField (setField fsB "metadata" (.vmap m1)) "kind" =
        getStringField fsB "kind" :=
      getStringField_congr (by rw [lookupField_setField]; simp)
    have hkeq2 : getStringField (setField fsB "metadata" (.vmap m2)) "kind" =
        getStringField fsB "kind" :=
      getStringField_congr (by rw [lookupField_setField]; simp)
    have hmd1 : getMapField (setField fsB "metadata" (.vmap m1)) "metadata" = some m1 := by
      unfold getMapField
      rw [lookupField_setField]
      simp [hmB]
    have hmd2 : getMapField (setField fsB "metadata" (.vmap m2)) "metadata" = some m2 := by
      unfold getMapField
      rw [lookupField_setField]
      simp [hmB]
    have hagree : ∀ k, k ≠ "metadata" →
        lookupField (setField fsB "metadata" (.vmap m1)) k =
        lookupField (setField fsB "metadata" (.vmap m2)) k := by
      intro k hk
      rw [lookupField_setField, lookupField_setField, if_neg hk, if_neg hk]
    rw [hydrateData_true, hydrateData_true]
    exact hydrateK8sObject_congr_metadata ps st
      (by rw [hkeq1]; exact hkB) (by rw [hkeq2, hkeq1]) hmd1 hmd2 hagree

theorem c5_witness :
    hydrateData psC5 st0 docC5 true = (docC5, st0, .err (.missingMetadata "secret")) ∧
    (hydrateData psC5 st0 (setField docW5 "metadata" (.vmap .fnil)) true).2 =
      (hydrateData psC5 st0
        (setField docW5 "metadata" (.vmap (.fcons "name" (.str "other") .fnil))) true).2 ∧
    lookupField (hydrateData psC5 st0 (setField docW5 "metadata" (.vmap .fnil)) true).1
        "data" =
      lookupField (hydrateData psC5 st0
        (setField docW5 "metadata" (.vmap (.fcons "name" (.str "other") .fnil))) true).1
        "data" := by
  have h := c5_metadata_map_required_name_irrelevant psC5 st0 docC5 docW5
    .fnil (.fcons "name" (.str "other") .fnil)
    (.vmap (.fcons "name" (.str "cm") .fnil))
    (by decide) (by decide) (by decide) (by decide)
  exact ⟨h.1, h.2.1, h.2.2 "data" (by decide)⟩

/-- Claim C5 counterexample: a Secret manifest with a data group but no
metadata map does not hydrate successfully — the source requires
`metadata` and fails with "doesn't have metadata" — contradicting the
claim that hydration succeeds without it. -/
theorem c5_counterexample :
    getStringField docC5 "kind" = "Secret" ∧
    getMapField docC5 "metadata" = none ∧
    hydrateData psC5 st0 docC5 true = (docC5, st0, .err (.missingMetadata "secret")) ∧
    (hydrateData psC5 st0 docC5 true).2.2 ≠ .ok :=
  ⟨by decide, by decide, by decide, by decide⟩

theorem isPrefixOf_append_self : ∀ (l t : List Char), l.isPrefixOf (l ++ t) = true
  | [], _ => by simp [List.isPrefixOf]
  | c :: rest, t => by simp [List.isPrefixOf, isPrefixOf_append_self rest t]

theorem beginsWith_append_self (m p : String) : beginsWith (m ++ p) m = true := by
  unfold beginsWith
  show m.data.isPrefixOf (m.data ++ p.data) = true
  exact isPrefixOf_append_self m.data p.data

theorem marker_append_ne_dd (p : String) : ("$SECRET:" ++ p) ≠ "$$" := by
  intro h
  have hlen := congrArg String.length h
  rw [String.length_append, show ("$SECRET:" : String).length = 8 from by decide,
      show ("$$" : String).length = 2 from by decide] at hlen
  omega

theorem marker_append_ne_secret (p : String) : ("$SECRET:" ++ p) ≠ "$SECRET" := by
  intro h
  have hlen := congrArg String.length h
  rw [String.length_append, show ("$SECRET:" : String).length = 8 from by decide,
      show ("$SECRET" : String).length = 7 from by decide] at hlen
  omega

theorem dropMarker_append (p : String) : dropMarker ("$SECRET:" ++ p) = p := by
  unfold dropMarker
  show String.mk (("$SECRET:".data ++ p.data).drop 8) = p
  rw [show (8 : Nat) = "$SECRET:".data.length from rfl, List.drop_left]

theorem getSecret_fetch (ps : PStore) (st : PState) (p sec : String)
    (habs : beginsWith p "/" = true)
    (hcache : lookupCache st.secrets p = none)
    (hprov : ps.provider p = .ok sec) :
    getSecret ps st p = (.ok sec, ⟨st.secrets ++ [(p, sec)], st.calls ++ [p]⟩) := by
  unfold getSecret normalizeKey
  rw [if_pos habs]
  dsimp only
  rw [hcache]
  dsimp only
  rw [hprov]

theorem hydrateKeyValue_explicit (ps : PStore) (st : PState) (key p sec : String)
    (habs : beginsWith p "/" = true)
    (hcache : lookupCache st.secrets p = none)
    (hprov : ps.provider p = .ok sec) :
    hydrateKeyValue ps st key ("$SECRET:" ++ p) =
      (.ok (some sec), ⟨st.secrets ++ [(p, sec)], st.calls ++ [p]⟩) := by
  unfold hydrateKeyValue
  rw [if_neg (not_or.mpr ⟨marker_append_ne_dd p, marker_append_ne_secret p⟩),
      if_pos (beginsWith_append_self "$SECRET:" p), dropMarker_append,
      getSecret_fetch ps st p sec habs hcache hprov]

theorem hydrateK8sObject_frame (ps : PStore) (st : PState) (fs : Fields)
    (hkind : getStringField fs "kind" = "ConfigMap" ∨ getStringField fs "kind" = "Secret") :
    ∀ key, key ≠ "data" → key ≠ "stringData" →
      lookupField (hydrateK8sObject ps st fs).1 key = lookupField fs key := by
  intro key h1 h2
  unfold hydrateK8sObject
  rw [if_pos hkind]
  match getMapField fs "metadata" with
  | none => rfl
  | some md =>
    dsimp only
    match getMapField fs "data" with
    | some dm =>
      dsimp only
      rcases h8 : hydrateK8sData ps st dm with ⟨dm1, st1, r⟩
      match r with
      | .ok =>
        dsimp only
        match getMapField fs "stringData" with
        | some sm =>
          rw [hydrateSDPart]
          rcases h9 : hydrateK8sStringData ps st1 sm with ⟨sm1, st2, r2⟩
          dsimp only
          rw [lookupField_setField, if_neg h2, lookupField_setField, if_neg h1]
        | none =>
          rw [hydrateSDPart]
          dsimp only
          rw [lookupField_setField, if_neg h1]
      | .err e =>
        dsimp only
        rw [lookupField_setField, if_neg h1]
      | .fatal e =>
        dsimp only
        rw [lookupField_setField, if_neg h1]
    | none =>
      dsimp only
      match getMapField fs "stringData" with
      | some sm =>
        rw [hydrateSDPart]
        rcases h9 : hydrateK8sStringData ps st sm with ⟨sm1, st2, r2⟩
        dsimp only
        rw [lookupField_setField, if_neg h2]
      | none => rw [hydrateSDPart]

theorem hydrateK8sData_singleton_ref (ps : PStore) (st : PState) (k v p sec : String)
    (hfmt : knownFormat (keyFormat k) = false)
    (hdec : base64DecodeStr v = some ("$SECRET:" ++ p))
    (habs : beginsWith p "/" = true)
    (hcache : lookupCache st.secrets p = none)
    (hprov : ps.provider p = .ok sec) :
    hydrateK8sData ps st (.fcons k (.str v) .fnil) =
      (.fcons k (.str (base64EncodeStr sec)) .fnil,
       ⟨st.secrets ++ [(p, sec)], st.calls ++ [p]⟩, .ok) := by
  rw [hydrateK8sData, hdec]
  dsimp only
  rw [if_neg (by simp [hfmt]), hydrateKeyValue_explicit ps st k p sec habs hcache hprov]
  dsimp only
  rw [hydrateK8sData]

theorem hydrateK8sStringData_singleton_ref (ps : PStore) (st : PState) (k p sec : String)
    (hfmt : knownFormat (keyFormat k) = false)
    (habs : beginsWith p "/" = true)
    (hcache : lookupCache st.secrets p = none)
    (hprov : ps.provider p = .ok sec) :
    hydrateK8sStringData ps st (.fcons k (.str ("$SECRET:" ++ p)) .fnil) =
      (.fcons k (.str sec) .fnil,
       ⟨st.secrets ++ [(p, sec)], st.calls ++ [p]⟩, .ok) := by
  rw [hydrateK8sStringData, if_neg (by simp [hfmt]),
      hydrateKeyValue_explicit ps st k p sec habs hcache hprov]
  dsimp only
  rw [hydrateK8sStringData]

theorem hydrateK8sObject_data_singleton (ps : PStore) (st : PState) (fs : Fields)
    (k v p sec : String) (md : Fields)
    (hkind : getStringField fs "kind" = "ConfigMap" ∨ getStringField fs "kind" = "Secret")
    (hmd : getMapField fs "metadata" = some md)
    (hdata : getMapField fs "data" = some (.fcons k (.str v) .fnil))
    (hsd : getMapField fs "stringData" = none)
    (hfmt : knownFormat (keyFormat k) = false)
    (hdec : base64DecodeStr v = some ("$SECRET:" ++ p))
    (habs : beginsWith p "/" = true)
    (hcache : lookupCache st.secrets p = none)
    (hprov : ps.provider p = .ok sec) :
    hydrateK8sObject ps st fs =
      (setField fs "data" (.vmap (.fcons k (.str (base64EncodeStr sec)) .fnil)),
       ⟨st.secrets ++ [(p, sec)], st.calls ++ [p]⟩, .ok) := by
  unfold hydrateK8sObject
  rw [if_pos hkind, hmd]
  dsimp only
  rw [hdata]
  dsimp only
  rw [hydrateK8sData_singleton_ref ps st k v p sec hfmt hdec habs hcache hprov]
  dsimp only
  rw [hsd, hydrateSDPart]

theorem hydrateK8sObject_sd_singleton (ps : PStore) (st : PState) (fs : Fields)
    (k p sec : String) (md : Fields)
    (hkind : getStringField fs "kind" = "ConfigMap" ∨ getStringField fs "kind" = "Secret")
    (hmd : getMapField fs "metadata" = some md)
    (hdata : getMapField fs "data" = none)
    (hsd : getMapField fs "stringData" = some (.fcons k (.str ("$SECRET:" ++ p)) .fnil))
    (hfmt : knownFormat (keyFormat k) = false)
    (habs : beginsWith p "/" = true)
    (hcache : lookupCache st.secrets p = none)
    (hprov : ps.provider p = .ok sec) :
    hydrateK8sObject ps st fs =
      (setField fs "stringData" (.vmap (.fcons k (.str sec) .fnil)),
       ⟨st.secrets ++ [(p, sec)], st.calls ++ [p]⟩, .ok) := by
  unfold hydrateK8sObject
  rw [if_pos hkind, hmd]
  dsimp only
  rw [hdata]
  dsimp only
  rw [hsd, hydrateSDPart,
      hydrateK8sStringData_singleton_ref ps st k p sec hfmt habs hcache hprov]

/-- Claim C6 (amended): in Kubernetes mode only the `data` (base64) and
`stringData` (plain-text) groups are processed. Every other field of a
ConfigMap/Secret manifest — `binaryData` included — is left exactly as it
was (first conjunct). In a processed `data` group a reference is
base64-decoded, resolved, and written back base64-re-encoded (second
conjunct); in `stringData` the reference is resolved and written back in
plain text (third conjunct). -/
theorem c6_field_group_policy (ps : PStore) (st : PState)
    (fsA fsB fsC : Fields) (kB vB pB secB kC pC secC : String) (mdB mdC : Fields)
    (hkA : getStringField fsA "kind" = "ConfigMap" ∨ getStringField fsA "kind" = "Secret")
    (hkB : getStringField fsB "kind" = "ConfigMap" ∨ getStringField fsB "kind" = "Secret")
    (hmdB : getMapField fsB "metadata" = some mdB)
    (hdataB : getMapField fsB "data" = some (.fcons kB (.str vB) .fnil))
    (hsdB : getMapField fsB "stringData" = none)
    (hfmtB : knownFormat (keyFormat kB) = false)
    (hdecB : base64DecodeStr vB = some ("$SECRET:" ++ pB))
    (habsB : beginsWith pB "/" = true)
    (hcacheB : lookupCache st.secrets pB = none)
    (hprovB : ps.provider pB = .ok secB)
    (hkC : getStringField fsC "kind" = "ConfigMap" ∨ getStringField fsC "kind" = "Secret")
    (hmdC : getMapField fsC "metadata" = some mdC)
    (hdataC : getMapField fsC "data" = none)
    (hsdC : getMapField fsC "stringData" = some (.fcons kC (.str ("$SECRET:" ++ pC)) .fnil))
    (hfmtC : knownFormat (keyFormat kC) = false)
    (habsC : beginsWith pC "/" = true)
    (hcacheC : lookupCache st.secrets pC = none)
    (hprovC : ps.provider pC = .ok secC) :
    (∀ key, key ≠ "data" → key ≠ "stringData" →
       lookupField (hydrateData ps st fsA true).1 key = lookupField fsA key) ∧
    hydrateData ps st fsB true =
      (setField fsB "data" (.vmap (.fcons kB (.str (base64EncodeStr secB)) .fnil)),
       ⟨st.secrets ++ [(pB, secB)], st.calls ++ [pB]⟩, .ok) ∧
    hydrateData ps st fsC true =
      (setField fsC "stringData" (.vmap (.fcons kC (.str secC) .fnil)),
       ⟨st.secrets ++ [(pC, secC)], st.calls ++ [pC]⟩, .ok) := by
  refine ⟨fun key h1 h2 => ?_, ?_, ?_⟩
  · rw [hydrateData_true]
    exact hydrateK8sObject_frame ps st fsA hkA key h1 h2
  · rw [hydrateData_true]
    exact hydrateK8sObject_data_singleton ps st fsB kB vB pB secB mdB
      hkB hmdB hdataB hsdB hfmtB hdecB habsB hcacheB hprovB
  · rw [hydrateData_true]
    exact hydrateK8sObject_sd_singleton ps st fsC kC pC secC mdC
      hkC hmdC hdataC hsdC hfmtC habsC hcacheC hprovC

theorem c6_witness :
    lookupField (hydrateData psW6 st0 docC6 true).1 "binaryData" =
      lookupField docC6 "binaryData" ∧
    hydrateData psW6 st0 docW6B true =
      (setField docW6B "data"
        (.vmap (.fcons "pwd" (.str (base64EncodeStr "s3cr3t")) .fnil)),
       ⟨[("/b/pwd", "s3cr3t")], ["/b/pwd"]⟩, .ok) ∧
    hydrateData psW6 st0 docW6C true =
      (setField docW6C "stringData" (.vmap (.fcons "tok" (.str "t0k") .fnil)),
       ⟨[("/b/tok", "t0k")], ["/b/tok"]⟩, .ok) := by
  have h := c6_field_group_policy psW6 st0 docC6 docW6B docW6C
    "pwd" (base64EncodeStr "$SECRET:/b/pwd") "/b/pwd" "s3cr3t"
    "tok" "/b/tok" "t0k"
    (.fcons "name" (.str "app") .fnil) .fnil
    (by decide) (by decide) (by decide) (by decide) (by decide) (by decide)
    (by decide) (by decide) (by decide) rfl
    (by decide) (by decide) (by decide) (by decide) (by decide) (by decide)
    (by decide) rfl
  exact ⟨h.1 "binaryData" (by decide) (by decide), h.2.1, h.2.2⟩

/-- Claim C6 counterexample: a secret reference stored in a ConfigMap's
`binaryData` group is not decoded, not resolved (the provider is never
called: the final call log is empty) and not re-encoded — hydration
returns the document unchanged with success, contradicting the claimed
processing of `binaryData`. -/
theorem c6_counterexample :
    base64DecodeStr (base64EncodeStr "$SECRET:/b/p") = some "$SECRET:/b/p" ∧
    isRef "$SECRET:/b/p" = true ∧
    hydrateData psC6 st0 docC6 true = (docC6, st0, .ok) :=
  ⟨by decide, by decide, by decide⟩

/-- Claim C7 (amended): a scalar exactly `"$SECRET:"` resolves the empty
key. With no base path configured this surfaces the resolver's
invalid-parameter-path error (wrapped with the key and value). With a
base path configured it does not error: the empty key silently resolves
to the cleaned base path itself (here shown through the cache: the value
stored at `pathClean basePath` is returned). -/
theorem c7_empty_suffix_resolution (ps : PStore) (st : PState) (key v : String) :
    (ps.basePath = "" →
      hydrateKeyValue ps st key "$SECRET:" =
        (.error (.wrap (key ++ "=" ++ q "$SECRET:") (.badPath "")), st)) ∧
    (ps.basePath ≠ "" →
      lookupCache st.secrets (pathClean ps.basePath) = some v →
      hydrateKeyValue ps st key "$SECRET:" = (.ok (some v), st)) := by
  constructor
  · intro hb
    unfold hydrateKeyValue
    rw [if_neg (by decide), if_pos (by decide),
        show dropMarker "$SECRET:" = "" from rfl]
    unfold getSecret normalizeKey
    rw [if_neg (by decide), if_pos hb]
  · intro hb hc
    unfold hydrateKeyValue
    rw [if_neg (by decide), if_pos (by decide),
        show dropMarker "$SECRET:" = "" from rfl]
    unfold getSecret normalizeKey
    rw [if_neg (by decide), if_neg hb]
    have hj : filepathJoin ps.basePath "" = pathClean ps.basePath := by
      unfold filepathJoin
      rw [if_neg (fun hh => hb hh.1), if_neg hb, if_pos rfl]
    rw [hj]
    dsimp only
    rw [hc]

theorem c7_witness :
    hydrateKeyValue psW7e st0 "k" "$SECRET:" =
      (.error (.wrap ("k" ++ "=" ++ q "$SECRET:") (.badPath "")), st0) ∧
    hydrateKeyValue psC7 stW7 "k" "$SECRET:" = (.ok (some "rv"), stW7) :=
  ⟨(c7_empty_suffix_resolution psW7e st0 "k" "rv").1 rfl,
   (c7_empty_suffix_resolution psC7 stW7 "k" "rv").2 (by decide) (by decide)⟩

/-- Claim C7 counterexample: with a base path configured (`/app`), the
value `"$SECRET:"` does NOT surface an error — the empty key resolves to
the base path itself and the provider's value for `/app` is returned —
contradicting "regardless of whether a base path is configured". -/
theorem c7_counterexample :
    psC7.basePath ≠ "" ∧
    hydrateKeyValue psC7 st0 "k" "$SECRET:" =
      (.ok (some "rootsecret"), ⟨[("/app", "rootsecret")], ["/app"]⟩) :=
  ⟨by decide, rfl⟩

theorem isPrefixOf_append_left : ∀ {l m : List Char} (t : List Char),
    l.isPrefixOf m = true → l.isPrefixOf (m ++ t) = true
  | [], _, t, _ => by simp [List.isPrefixOf]
  | a :: as, [], t, h => by simp [List.isPrefixOf] at h
  | a :: as, b :: bs, t, h => by
      simp only [List.isPrefixOf, Bool.and_eq_true, List.cons_append] at h ⊢
      exact ⟨h.1, isPrefixOf_append_left t h.2⟩

theorem beginsWith_append_left {a : String} (b : String)
    (h : beginsWith a "/" = true) : beginsWith (a ++ b) "/" = true := by
  unfold beginsWith at *
  show "/".data.isPrefixOf (a.data ++ b.data) = true
  exact isPrefixOf_append_left b.data h

theorem getSecret_congr (ps : PStore) (st : PState) {a b N : String}
    (ha : normalizeKey ps a = .ok N) (hb : normalizeKey ps b = .ok N) :
    getSecret ps st a = getSecret ps st b := by
  unfold getSecret
  rw [ha, hb]

/-- Claim C3 (amended): when the configured base path is absolute, the
map key `k` is non-empty and not absolute, and the concatenation
`basePath ++ "/" ++ k` is already a clean path (in particular the base
path has no trailing slash), then `"$$"`, `"$SECRET"` and
`"$SECRET:" ++ basePath ++ "/" ++ k` at key `k` all resolve through the
same normalized lookup path: they produce the same resolved value and
the same run state (on failure the wrapped error messages differ only in
the quoted raw value). -/
theorem c3_selfkey_equals_explicit (ps : PStore) (st : PState) (k : String)
    (h1 : beginsWith ps.basePath "/" = true)
    (h2 : beginsWith k "/" = false)
    (h3 : k ≠ "")
    (h4 : pathClean (ps.basePath ++ "/" ++ k) = ps.basePath ++ "/" ++ k) :
    resolvedValue (hydrateKeyValue ps st k "$$") =
      resolvedValue (hydrateKeyValue ps st k "$SECRET") ∧
    (hydrateKeyValue ps st k "$$").2 = (hydrateKeyValue ps st k "$SECRET").2 ∧
    resolvedValue (hydrateKeyValue ps st k "$$") =
      resolvedValue (hydrateKeyValue ps st k ("$SECRET:" ++ (ps.basePath ++ "/" ++ k))) ∧
    (hydrateKeyValue ps st k "$$").2 =
      (hydrateKeyValue ps st k ("$SECRET:" ++ (ps.basePath ++ "/" ++ k))).2 := by
  have hbase_ne : ps.basePath ≠ "" := by
    intro hb
    rw [hb] at h1
    exact absurd h1 (by decide)
  have hN1 : normalizeKey ps k = .ok (ps.basePath ++ "/" ++ k) := by
    unfold normalizeKey
    rw [if_neg (by simp [h2]), if_neg hbase_ne]
    unfold filepathJoin
    rw [if_neg (fun hh => hbase_ne hh.1), if_neg hbase_ne, if_neg h3, h4]
  have hpfx : beginsWith (ps.basePath ++ "/" ++ k) "/" = true :=
    beginsWith_append_left k (beginsWith_append_left "/" h1)
  have hN2 : normalizeKey ps (ps.basePath ++ "/" ++ k) = .ok (ps.basePath ++ "/" ++ k) := by
    unfold normalizeKey
    rw [if_pos hpfx]
  have hgs : getSecret ps st k = getSecret ps st (ps.basePath ++ "/" ++ k) :=
    getSecret_congr ps st hN1 hN2
  have e1 : hydrateKeyValue ps st k "$$" =
      (match getSecret ps st k with
       | (.ok s, st1) => (.ok (some s), st1)
       | (.error e, st1) => (.error (.wrap (k ++ "=" ++ q "$$") e), st1)) := by
    unfold hydrateKeyValue
    rw [if_pos (Or.inl rfl)]
  have e2 : hydrateKeyValue ps st k "$SECRET" =
      (match getSecret ps st k with
       | (.ok s, st1) => (.ok (some s), st1)
       | (.error e, st1) => (.error (.wrap (k ++ "=" ++ q "$SECRET") e), st1)) := by
    unfold hydrateKeyValue
    rw [if_pos (Or.inr rfl)]
  have e3 : hydrateKeyValue ps st k ("$SECRET:" ++ (ps.basePath ++ "/" ++ k)) =
      (match getSecret ps st k with
       | (.ok s, st1) => (.ok (some s), st1)
       | (.error e, st1) =>
           (.error (.wrap (k ++ "=" ++ q ("$SECRET:" ++ (ps.basePath ++ "/" ++ k))) e), st1)) := by
    unfold hydrateKeyValue
    rw [if_neg (not_or.mpr ⟨marker_append_ne_dd _, marker_append_ne_secret _⟩),
        if_pos (beginsWith_append_self "$SECRET:" _), dropMarker_append, hgs]
  rw [e1, e2, e3]
  rcases hg : getSecret ps st k with ⟨res, st1⟩
  match res with
  | .ok s => exact ⟨rfl, rfl, rfl, rfl⟩
  | .error e => exact ⟨rfl, rfl, rfl, rfl⟩

theorem c3_witness :
    resolvedValue (hydrateKeyValue psW3 st0 "x" "$$") =
      resolvedValue (hydrateKeyValue psW3 st0 "x" "$SECRET") ∧
    (hydrateKeyValue psW3 st0 "x" "$$").2 = (hydrateKeyValue psW3 st0 "x" "$SECRET").2 ∧
    resolvedValue (hydrateKeyValue psW3 st0 "x" "$$") =
      resolvedValue (hydrateKeyValue psW3 st0 "x" ("$SECRET:" ++ (psW3.basePath ++ "/" ++ "x"))) ∧
    (hydrateKeyValue psW3 st0 "x" "$$").2 =
      (hydrateKeyValue psW3 st0 "x" ("$SECRET:" ++ (psW3.basePath ++ "/" ++ "x"))).2 :=
  c3_selfkey_equals_explicit psW3 st0 "x" (by decide) (by decide) (by decide) (by decide)

/-- Claim C3 counterexample: with the configured base path `"/app/"`
(trailing slash, as in the tool's usage example), `"$$"` at key `x`
resolves through `filepath.Join`'s CLEANED path `/app/x` and succeeds,
while `"$SECRET:" ++ base ++ "/" ++ "x"` passes the uncleaned absolute
path `/app//x` to the provider verbatim and fails — the two do not
resolve through the same normalized lookup path. -/
theorem c3_counterexample :
    psC3.basePath = "/app/" ∧
    resolvedValue (hydrateKeyValue psC3 st0 "x" "$$") = some (some "A") ∧
    resolvedValue (hydrateKeyValue psC3 st0 "x"
      ("$SECRET:" ++ ("/app/" ++ "/" ++ "x"))) = none :=
  ⟨rfl, rfl, rfl⟩

theorem hydrateFields_ctx : ∀ (ps : PStore) (path : List String) (st : PState) (fs : Fields),
    resReturnedWithCtx (hydrateFields ps path st fs).2.2 = true
  | ps, path, st, .fnil => by simp [hydrateFields, resReturnedWithCtx]
  | ps, path, st, .fcons key (.str s) rest => by
      rcases hkv : hydrateKeyValue ps st key s with ⟨res, st1⟩
      match res with
      | .error e => simp [hydrateFields, hkv, resReturnedWithCtx]
      | .ok none =>
        have ih := hydrateFields_ctx ps path st1 rest
        rcases h2 : hydrateFields ps path st1 rest with ⟨rest1, st2, r⟩
        rw [h2] at ih
        simpa [hydrateFields, hkv, h2] using ih
      | .ok (some sec) =>
        have ih := hydrateFields_ctx ps path st1 rest
        rcases h2 : hydrateFields ps path st1 rest with ⟨rest1, st2, r⟩
        rw [h2] at ih
        simpa [hydrateFields, hkv, h2] using ih
  | ps, path, st, .fcons key (.vmap m) rest => by
      have ihm := hydrateFields_ctx ps (path ++ [key]) st m
      rcases h1 : hydrateFields ps (path ++ [key]) st m with ⟨m1, st1, r⟩
      rw [h1] at ihm
      match r with
      | .ok =>
        have ih := hydrateFields_ctx ps path st1 rest
        rcases h2 : hydrateFields ps path st1 rest with ⟨rest1, st2, r2⟩
        rw [h2] at ih
        simpa [hydrateFields, h1, h2] using ih
      | .err e => simpa [hydrateFields, h1] using ihm
      | .fatal e => simpa [hydrateFields, h1] using ihm
  | ps, path, st, .fcons key (.vint n) rest => by
      have ih := hydrateFields_ctx ps path st rest
      rcases h2 : hydrateFields ps path st rest with ⟨rest1, st2, r⟩
      rw [h2] at ih
      simpa [hydrateFields, h2] using ih
  | ps, path, st, .fcons key (.vbool b) rest => by
      have ih := hydrateFields_ctx ps path st rest
      rcases h2 : hydrateFields ps path st rest with ⟨rest1, st2, r⟩
      rw [h2] at ih
      simpa [hydrateFields, h2] using ih
  | ps, path, st, .fcons key .vnull rest => by
      have ih := hydrateFields_ctx ps path st rest
      rcases h2 : hydrateFields ps path st rest with ⟨rest1, st2, r⟩
      rw [h2] at ih
      simpa [hydrateFields, h2] using ih
  | ps, path, st, .fcons key (.varr l) rest => by
      have ih := hydrateFields_ctx ps path st rest
      rcases h2 : hydrateFields ps path st rest with ⟨rest1, st2, r⟩
      rw [h2] at ih
      simpa [hydrateFields, h2] using ih

theorem hydrateK8sData_ctx : ∀ (ps : PStore) (st : PState) (fs : Fields),
    groupNoFiles fs = true → resReturnedWithCtx (hydrateK8sData ps st fs).2.2 = true
  | ps, st, .fnil, _ => by simp [hydrateK8sData, resReturnedWithCtx]
  | ps, st, .fcons key (.str s) rest, h => by
      simp only [groupNoFiles, Bool.and_eq_true, Bool.not_eq_true'] at h
      match hd : base64DecodeStr s with
      | none => simp [hydrateK8sData, hd, resReturnedWithCtx]
      | some decoded =>
        rcases hkv : hydrateKeyValue ps st key decoded with ⟨res, st1⟩
        match res with
        | .error e =>
          simp [hydrateK8sData, hd, h.1, hkv, resReturnedWithCtx]
        | .ok none =>
          have ih := hydrateK8sData_ctx ps st1 rest (by simpa [groupNoFiles] using h.2)
          rcases h2 : hydrateK8sData ps st1 rest with ⟨rest1, st2, r⟩
          rw [h2] at ih
          simpa [hydrateK8sData, hd, h.1, hkv, h2] using ih
        | .ok (some sec) =>
          have ih := hydrateK8sData_ctx ps st1 rest (by simpa [groupNoFiles] using h.2)
          rcases h2 : hydrateK8sData ps st1 rest with ⟨rest1, st2, r⟩
          rw [h2] at ih
          simpa [hydrateK8sData, hd, h.1, hkv, h2] using ih
  | ps, st, .fcons key (.vint n) rest, h => by
      simp only [groupNoFiles, Bool.and_eq_true] at h
      have ih := hydrateK8sData_ctx ps st rest (by simpa [groupNoFiles] using h.2)
      rcases h2 : hydrateK8sData ps st rest with ⟨rest1, st2, r⟩
      rw [h2] at ih
      simpa [hydrateK8sData, h2] using ih
  | ps, st, .fcons key (.vbool b) rest, h => by
      simp only [groupNoFiles, Bool.and_eq_true] at h
      have ih := hydrateK8sData_ctx ps st rest (by simpa [groupNoFiles] using h.2)
      rcases h2 : hydrateK8sData ps st rest with ⟨rest1, st2, r⟩
      rw [h2] at ih
      simpa [hydrateK8sData, h2] using ih
  | ps, st, .fcons key .vnull rest, h => by
      simp only [groupNoFiles, Bool.and_eq_true] at h
      have ih := hydrateK8sData_ctx ps st rest (by simpa [groupNoFiles] using h.2)
      rcases h2 : hydrateK8sData ps st rest with ⟨rest1, st2, r⟩
      rw [h2] at ih
      simpa [hydrateK8sData, h2] using ih
  | ps, st, .fcons key (.varr l) rest, h => by
      simp only [groupNoFiles, Bool.and_eq_true] at h
      have ih := hydrateK8sData_ctx ps st rest (by simpa [groupNoFiles] using h.2)
      rcases h2 : hydrateK8sData ps st rest with ⟨rest1, st2, r⟩
      rw [h2] at ih
      simpa [hydrateK8sData, h2] using ih
  | ps, st, .fcons key (.vmap m) rest, h => by
      simp only [groupNoFiles, Bool.and_eq_true] at h
      have ih := hydrateK8sData_ctx ps st rest (by simpa [groupNoFiles] using h.2)
      rcases h2 : hydrateK8sData ps st rest with ⟨rest1, st2, r⟩
      rw [h2] at ih
      simpa [hydrateK8sData, h2] using ih

theorem hydrateK8sStringData_ctx : ∀ (ps : PStore) (st : PState) (fs : Fields),
    groupNoFiles fs = true → resReturnedWithCtx (hydrateK8sStringData ps st fs).2.2 = true
  | ps, st, .fnil, _ => by simp [hydrateK8sStringData, resReturnedWithCtx]
  | ps, st, .fcons key (.str s) rest, h => by
      simp only [groupNoFiles, Bool.and_eq_true, Bool.not_eq_true'] at h
      rcases hkv : hydrateKeyValue ps st key s with ⟨res, st1⟩
      match res with
      | .error e =>
        simp [hydrateK8sStringData, h.1, hkv, resReturnedWithCtx]
      | .ok none =>
        have ih := hydrateK8sStringData_ctx ps st1 rest (by simpa [groupNoFiles] using h.2)
        rcases h2 : hydrateK8sStringData ps st1 rest with ⟨rest1, st2, r⟩
        rw [h2] at ih
        simpa [hydrateK8sStringData, h.1, hkv, h2] using ih
      | .ok (some sec) =>
        have ih := hydrateK8sStringData_ctx ps st1 rest (by simpa [groupNoFiles] using h.2)
        rcases h2 : hydrateK8sStringData ps st1 rest with ⟨rest1, st2, r⟩
        rw [h2] at ih
        simpa [hydrateK8sStringData, h.1, hkv, h2] using ih
  | ps, st, .fcons key (.vint n) rest, h => by
      simp only [groupNoFiles, Bool.and_eq_true] at h
      have ih := hydrateK8sStringData_ctx ps st rest (by simpa [groupNoFiles] using h.2)
      rcases h2 : hydrateK8sStringData ps st rest with ⟨rest1, st2, r⟩
      rw [h2] at ih
      simpa [hydrateK8sStringData, h2] using ih
  | ps, st, .fcons key (.vbool b) rest, h => by
      simp only [groupNoFiles, Bool.and_eq_true] at h
      have ih := hydrateK8sStringData_ctx ps st rest (by simpa [groupNoFiles] using h.2)
      rcases h2 : hydrateK8sStringData ps st rest with ⟨rest1, st2, r⟩
      rw [h2] at ih
      simpa [hydrateK8sStringData, h2] using ih
  | ps, st, .fcons key .vnull rest, h => by
      simp only [groupNoFiles, Bool.and_eq_true] at h
      have ih := hydrateK8sStringData_ctx ps st rest (by simpa [groupNoFiles] using h.2)
      rcases h2 : hydrateK8sStringData ps st rest with ⟨rest1, st2, r⟩
      rw [h2] at ih
      simpa [hydrateK8sStringData, h2] using ih
  | ps, st, .fcons key (.varr l) rest, h => by
      simp only [groupNoFiles, Bool.and_eq_true] at h
      have ih := hydrateK8sStringData_ctx ps st rest (by simpa [groupNoFiles] using h.2)
      rcases h2 : hydrateK8sStringData ps st rest with ⟨rest1, st2, r⟩
      rw [h2] at ih
      simpa [hydrateK8sStringData, h2] using ih
  | ps, st, .fcons key (.vmap m) rest, h => by
      simp only [groupNoFiles, Bool.and_eq_true] at h
      have ih := hydrateK8sStringData_ctx ps st rest (by simpa [groupNoFiles] using h.2)
      rcases h2 : hydrateK8sStringData ps st rest with ⟨rest1, st2, r⟩
      rw [h2] at ih
      simpa [hydrateK8sStringData, h2] using ih

theorem hydrateSDPart_ctx (ps : PStore) (st : PState) (fs : Fields) :
    ∀ (sdM : Option Fields),
    (∀ sm, sdM = some sm → groupNoFiles sm = true) →
    resReturnedWithCtx (hydrateSDPart ps st fs sdM).2.2 = true
  | none, _ => by simp [hydrateSDPart, resReturnedWithCtx]
  | some sm, h => by
      have hl := hydrateK8sStringData_ctx ps st sm (h sm rfl)
      rcases h1 : hydrateK8sStringData ps st sm with ⟨sm1, st1, r⟩
      rw [h1] at hl
      simpa [hydrateSDPart, h1] using hl

theorem hydrateK8sObject_ctx (ps : PStore) (st : PState) (fs : Fields)
    (hfiles : k8sNoFiles fs = true) :
    resReturnedWithCtx (hydrateK8sObject ps st fs).2.2 = true := by
  unfold k8sNoFiles at hfiles
  simp only [Bool.and_eq_true] at hfiles
  unfold hydrateK8sObject
  by_cases hkind : getStringField fs "kind" = "ConfigMap" ∨ getStringField fs "kind" = "Secret"
  · simp only [hkind, if_true]
    match getMapField fs "metadata" with
    | none => simp [resReturnedWithCtx]
    | some md =>
      dsimp only
      match hd : getMapField fs "data" with
      | some dm =>
        rw [hd] at hfiles
        dsimp only
        have hdm := hydrateK8sData_ctx ps st dm hfiles.1
        rcases h1 : hydrateK8sData ps st dm with ⟨dm1, st1, r⟩
        rw [h1] at hdm
        match r with
        | .ok =>
          dsimp only
          refine hydrateSDPart_ctx ps st1 _ _ (fun sm hsm => ?_)
          rw [hsm] at hfiles
          exact hfiles.2
        | .err e => simpa using hdm
        | .fatal e => simpa using hdm
      | none =>
        rw [hd] at hfiles
        dsimp only
        refine hydrateSDPart_ctx ps st _ _ (fun sm hsm => ?_)
        rw [hsm] at hfiles
        exact hfiles.2
  · simp only [hkind, if_false]
    by_cases hempty : getStringField fs "kind" = ""
    · simp only [hempty, if_true]
      exact hydrateFields_ctx ps [] st fs
    · simp only [hempty, if_false]
      simp [resReturnedWithCtx]

/-- Claim C8 (amended): in plain mode every failure anywhere in the
subtree is returned to the caller as an error value wrapped with
path/key context, and the walk never exits the process; in Kubernetes
mode the same holds provided no field-group key carries a
structured-format extension — a failure while hydrating a nested
structured file inside a field group instead terminates the process via
`log.Fatal` and never returns to the caller. -/
theorem c8_errors_returned_with_context (ps : PStore) (st : PState) (fs : Fields) :
    resReturnedWithCtx (hydrateData ps st fs false).2.2 = true ∧
    (k8sNoFiles fs = true → resReturnedWithCtx (hydrateData ps st fs true).2.2 = true) := by
  constructor
  · rw [hydrateData_false]
    exact hydrateFields_ctx ps [] st fs
  · intro hfiles
    rw [hydrateData_true]
    exact hydrateK8sObject_ctx ps st fs hfiles

theorem c8_witness :
    resReturnedWithCtx (hydrateData psW8 st0 docW8plain false).2.2 = true ∧
    resReturnedWithCtx (hydrateData psW8 st0 docW8k8s true).2.2 = true ∧
    isReturnedErr (hydrateData psW8 st0 docW8plain false).2.2 = true ∧
    isReturnedErr (hydrateData psW8 st0 docW8k8s true).2.2 = true :=
  ⟨(c8_errors_returned_with_context psW8 st0 docW8plain).1,
   (c8_errors_returned_with_context psW8 st0 docW8k8s).2 (by decide),
   by decide, by decide⟩

/-- Claim C8 counterexample: a failure while hydrating the nested
structured file `cfg.json` inside a Secret's data group produces the
`log.Fatal` outcome — the process exits and no error value is returned
to the caller — contradicting the claim that the first error anywhere,
including nested structured files, is returned to the caller. -/
theorem c8_counterexample :
    (hydrateData psC8 st0 docC8 true).2.2 =
      .fatal (.wrap "failed to decode json" (.external "bad syntax")) ∧
    isReturnedErr (hydrateData psC8 st0 docC8 true).2.2 = false :=
  ⟨by decide, by decide⟩
